import Mathlib

/-!
# Row selection in `tables`: expression parser and typed comparison

A shallow embedding of `rows.go` (the `rows` command of js-arias/tables):
`compare`, `skipExpressionSpaces`, `parseExpression`, `getFieldValue` and
`rowsFn`, and of the functions of `cols.go` (`selectColumns`, `deleteColumns`,
`colsFn`), followed by the properties established about them.

Conventions of the embedding.

* A Go `string` is a Lean `String`, i.e. a sequence of Unicode code points
  (valid UTF-8 text).  A `*strings.Reader` is the list of runes still to be
  read: `ReadRune` takes the head of the list (`io.EOF` on the empty list) and
  `UnreadRune` puts the rune just read back.
* A Go `interface{}` holding `nil`, a `string` or a `float64` is a `Value`.
* A Go `int` is an `Int` (column numbers and operator codes are far from the
  64-bit limits).
* The functions of the Go standard library that the code calls
  (`unicode.IsSpace`, `unicode.IsDigit`, `strconv.ParseFloat`) are not part of
  the repository; they are the fields of a `Lib` that every definition takes as
  a parameter.
* A run-time panic (index out of range) is the result `none`.
* The order of Go on strings compares bytes; on valid UTF-8 text it is the
  lexicographic order of the code points, which is the order of `String`.
-/

set_option autoImplicit false

namespace Tables

/-! ## Data model -/

/-- A `float64` as far as the comparison operators of Go can observe it: not a
number, one of the two infinities, or a finite value (the two zeros compare
equal and are one value here). -/
inductive Float64 where
  | nan
  | negInf
  | fin (q : ℚ)
  | posInf
  deriving DecidableEq

namespace Float64

/-- Go `x == w` on `float64`: a NaN is equal to nothing. -/
def eq : Float64 → Float64 → Bool
  | nan, _ => false
  | _, nan => false
  | negInf, negInf => true
  | posInf, posInf => true
  | fin a, fin b => decide (a = b)
  | _, _ => false

/-- Go `x < w` on `float64`: false as soon as one side is a NaN. -/
def lt : Float64 → Float64 → Bool
  | nan, _ => false
  | _, nan => false
  | negInf, negInf => false
  | negInf, _ => true
  | fin _, negInf => false
  | fin a, fin b => decide (a < b)
  | fin _, posInf => true
  | posInf, _ => false

/-- Go `x <= w` on `float64`. -/
def le (x w : Float64) : Bool := lt x w || eq x w

end Float64

/-- The dynamic values held by the `interface{}` variables of `rows.go`. -/
inductive Value where
  | nil
  | str (s : String)
  | num (x : Float64)
  deriving DecidableEq

/-- The functions of the Go standard library used by `rows.go`, with the facts
about them that the properties below rely on: the four operator characters, the
double quote, the minus sign and the full stop are neither white space nor
digits. -/
structure Lib where
  /-- Go `unicode.IsSpace`. -/
  isSpace : Char → Bool
  /-- Go `unicode.IsDigit`. -/
  isDigit : Char → Bool
  /-- Go `strconv.ParseFloat(s, 64)`; `none` when it returns an error. -/
  parseFloat : String → Option Float64
  /-- The punctuation of the expression language is not white space. -/
  notSpace : ∀ c ∈ ['=', '!', '>', '<', '"', '-', '.'], isSpace c = false
  /-- The punctuation of the expression language is not a digit. -/
  notDigit : ∀ c ∈ ['=', '!', '>', '<', '"', '-', '.'], isDigit c = false

/-- The errors that `parseExpression` returns. -/
inductive ParseError where
  /-- Go `io.EOF`, from `ReadRune` at the end of the text. -/
  | eof
  /-- The error `unknown operand: s`. -/
  | unknownOperand (s : String)
  /-- The error returned by `strconv.ParseFloat` on the token `s`. -/
  | number (s : String)
  /-- The error `expecting a valid column name`. -/
  | invalidColumn
  deriving DecidableEq

/-- Go `type expression struct`: a comparative expression between values of
one or more columns. -/
structure expression where
  /-- Go `cols [2]int`: the columns in the expression. -/
  cols : Int × Int
  /-- Go `op int`: the operation. -/
  op : Int
  /-- Go `value interface{}`. -/
  value : Value
  deriving DecidableEq

/-! ## Comparative operators -/

/-- Operator `==`. -/
def opEqual : Int := 0
/-- Operator `!=`. -/
def opDiff : Int := 1
/-- Operator `>`. -/
def opGreat : Int := 2
/-- Operator `>=`. -/
def opGreatEqual : Int := 3
/-- Operator `<`. -/
def opLess : Int := 4
/-- Operator `<=`. -/
def opLessEqual : Int := 5

/-- Go `compare`: true if the two values fulfil the conditional operator
given by `op`. -/
def compare (val1 val2 : Value) (op : Int) : Bool :=
  match val1 with
  | .str v =>
    match val2 with
    | .str w =>
      if op = opEqual then decide (v = w)
      else if op = opDiff then decide (v ≠ w)
      else if op = opGreat then decide (w < v)
      else if op = opGreatEqual then decide (w < v) || decide (v = w)
      else if op = opLess then decide (v < w)
      else if op = opLessEqual then decide (v < w) || decide (v = w)
      else false
    | _ =>
      -- val2 is not a string
      if op = opDiff then true
      else if op = opLess then true
      else false
  | .num x =>
    match val2 with
    | .num w =>
      if op = opEqual then Float64.eq x w
      else if op = opDiff then !Float64.eq x w
      else if op = opGreat then Float64.lt w x
      else if op = opGreatEqual then Float64.le w x
      else if op = opLess then Float64.lt x w
      else if op = opLessEqual then Float64.le x w
      else false
    | _ =>
      -- val2 is not a number
      if op = opDiff then true
      else if op = opGreat then true
      else false
  | .nil => false

/-! ## The expression parser -/

/-- Go `skipExpressionSpaces`: reads white space and stops in front of the
first rune that is not; the end of the text is the error `io.EOF`. -/
def skipExpressionSpaces (L : Lib) : List Char → Except ParseError (List Char)
  | [] => .error .eof
  | r1 :: r => if L.isSpace r1 then skipExpressionSpaces L r else .ok (r1 :: r)

/-- The first loop of `parseExpression` (get the column name), started with
buffer `b`: the result is the buffer and the reader after the loop. -/
def columnLoop (L : Lib) (b : List Char) : List Char → Except ParseError (List Char × List Char)
  | [] => .error .eof
  | r1 :: r =>
    if L.isSpace r1 then
      match skipExpressionSpaces L r with
      | .error err => .error err
      | .ok r2 => .ok (b, r2)
    else if r1 = '=' ∨ r1 = '!' ∨ r1 = '>' ∨ r1 = '<' then .ok (b, r1 :: r)
    else columnLoop L (b ++ [r1]) r

/-- The second loop of `parseExpression` (get the operand), started with
buffer `b`: the result is the buffer and the reader after the loop. -/
def operandLoop (L : Lib) (b : List Char) : List Char → Except ParseError (List Char × List Char)
  | [] => .error .eof
  | r1 :: r =>
    if L.isSpace r1 then
      match skipExpressionSpaces L r with
      | .error err => .error err
      | .ok r2 => .ok (b, r2)
    else if r1 = '"' then .ok (b, r1 :: r)
    else if L.isDigit r1 ∨ r1 = '-' ∨ r1 = '.' then .ok (b, r1 :: r)
    else if r1 ≠ '=' ∧ r1 ≠ '!' ∧ r1 ≠ '>' ∧ r1 ≠ '<' then .ok (b, r1 :: r)
    else operandLoop L (b ++ [r1]) r

/-- The `switch` of `parseExpression` on the operand text; `none` is the
`default` case (unknown operand). -/
def operandCode (s : String) : Option Int :=
  if s = "==" then some opEqual
  else if s = "!=" then some opDiff
  else if s = ">" then some opGreat
  else if s = ">=" then some opGreatEqual
  else if s = "<" then some opLess
  else if s = "<=" then some opLessEqual
  else none

/-- The loop of `parseExpression` that reads a quoted string, started with
buffer `b` after the opening quote: it ends at the next quote or at the end of
the text, and the result is the buffer. -/
def quotedLoop (b : List Char) : List Char → List Char
  | [] => b
  | r1 :: r => if r1 = '"' then b else quotedLoop (b ++ [r1]) r

/-- The loop of `parseExpression` that reads a number, and the identical loop
that reads another column: started with buffer `b` and the rune `r1` just read,
it writes `r1`, reads the next rune, and ends at the end of the text or at the
first white space; the result is the buffer. -/
def tokenLoop (L : Lib) (b : List Char) (r1 : Char) : List Char → List Char
  | [] => b ++ [r1]
  | r2 :: r => if L.isSpace r2 then b ++ [r1] else tokenLoop L (b ++ [r1]) r2 r

/-- The part of `parseExpression` that reads the second operand, given the
rune `r1` just read: the result is the pair of `val` and `col2`. -/
def secondOperand (L : Lib) (r1 : Char) (r : List Char) : Except ParseError (Value × String) :=
  if r1 = '"' then
    -- if it has quotes, it is a string
    .ok (.str (String.mk (quotedLoop [] r)), "")
  else if L.isDigit r1 ∨ r1 = '-' ∨ r1 = '.' then
    -- a number
    match L.parseFloat (String.mk (tokenLoop L [] r1 r)) with
    | none => .error (.number (String.mk (tokenLoop L [] r1 r)))
    | some x => .ok (.num x, "")
  else
    -- another column
    .ok (.nil, String.mk (tokenLoop L [] r1 r))

/-- The last loop of `parseExpression` (`for i, h := range header`), from
position `i` on with the columns `cols` found so far. -/
def headerLoop (col1 col2 : String) : List String → Int → Int × Int → Int × Int
  | [], _, cols => cols
  | h :: hs, i, cols =>
    let cols := if h = col1 then (i, cols.2) else cols
    let cols := if h = col2 then (cols.1, i) else cols
    headerLoop col1 col2 hs (i + 1) cols

/-- The end of `parseExpression`, from the comment "reads the second operand"
on: `col1` and `op` are what the first two parts found, `r` is the reader. -/
def parseSecond (L : Lib) (header : List String) (col1 : String) (op : Int) :
    List Char → Except ParseError expression
  | [] => .error .eof
  | r1 :: r =>
    match secondOperand L r1 r with
    | .error err => .error err
    | .ok (val, col2) =>
      let cols := headerLoop col1 col2 header 0 (-1, -1)
      if cols.1 = -1 then .error .invalidColumn
      else .ok { cols := cols, op := op, value := val }

/-- Go `parseExpression`: returns an expression from a text containing a
simple comparative expression. -/
def parseExpression (L : Lib) (header : List String) (r : List Char) :
    Except ParseError expression :=
  -- get the column name
  match columnLoop L [] r with
  | .error err => .error err
  | .ok (b1, r) =>
    -- get the operand
    match operandLoop L [] r with
    | .error err => .error err
    | .ok (b2, r) =>
      match operandCode (String.mk b2) with
      | none => .error (.unknownOperand (String.mk b2))
      | some op => parseSecond L header (String.mk b1) op r

/-! ## The row evaluator -/

/-- Go `getFieldValue`: the numeric or string value of a row field.  The
result is `none` when `[]rune(field)[0]` is out of range. -/
def getFieldValue (L : Lib) (field : String) : Option Value :=
  match field.data with
  | [] => none
  | r1 :: _ =>
    if L.isDigit r1 ∨ r1 = '-' ∨ r1 = '.' then
      match L.parseFloat field with
      | some x => some (.num x)
      | none => some (.str field)
    else some (.str field)

/-- Go `row[i]` for an `int` index: `none` when the index is out of range. -/
def index (row : List String) (i : Int) : Option String :=
  if i < 0 then none else row[i.toNat]?

/-- The loop of `rowsFn` over the expressions: the result is the final value
of `sel`, or `none` on a run-time panic. -/
def selLoop (L : Lib) (row : List String) : List expression → Option Bool
  | [] => some false
  | e :: exps =>
    match (index row e.cols.1).bind (getFieldValue L) with
    | none => none
    | some .nil => selLoop L row exps
    | some val1 =>
      let val2 :=
        if e.cols.2 ≠ -1 then (index row e.cols.2).bind (getFieldValue L)
        else some e.value
      match val2 with
      | none => none
      | some val2 => if compare val1 val2 e.op then some true else selLoop L row exps

/-- The errors of `r.Read()` on a `*csv.Reader`: the end of the input, or a
malformed record. -/
inductive ReadError where
  | eof
  | malformed (msg : String)
  deriving DecidableEq

/-- Go `rowsFn`: returns a row if it fulfils the indicated expressions,
otherwise an empty row.  The argument `read` is the result of `r.Read()` and
`invert` is the global flag.  The result is `none` on a run-time panic,
otherwise the returned row or error. -/
def rowsFn (L : Lib) (invert : Bool) (read : Except ReadError (List String))
    (exps : List expression) : Option (Except ReadError (List String)) :=
  match read with
  | .error err => some (.error err)
  | .ok row =>
    match selLoop L row exps with
    | none => none
    | some sel =>
      if (invert && !sel) || (sel && !invert) then some (.ok row)
      else some (.ok [])

/-! ## The column commands (`cols.go`) -/

/-- The loop `for i := range header` of `selectColumns` when no column is
given: it appends every position to `head`, from position `i` on. -/
def allColumns : List String → Int → List Int
  | [], _ => []
  | _ :: hs, i => i :: allColumns hs (i + 1)

/-- The inner loop of `selectColumns` for the name `c`, from position `j` on:
`head[i]` starts as -1 and becomes the position of the first entry equal to
`c`, where the loop breaks. -/
def lookupColumn (c : String) : List String → Int → Int
  | [], _ => -1
  | h :: hs, j => if c = h then j else lookupColumn c hs (j + 1)

/-- Go `selectColumns`: the column names of the new table, and the column
order (-1 if the column is new) on the original table; all the columns of the
original table if no column is given.  The argument `read` is the result of
`r.Read()`. -/
def selectColumns (read : Except ReadError (List String)) (args : List String) :
    Except ReadError (List String × List Int) :=
  match read with
  | .error err => .error err
  | .ok header =>
    -- if no columns are given returns all columns
    if args.length = 0 then .ok (header, allColumns header 0)
    -- lookup for columns
    else .ok (args, args.map (fun c => lookupColumn c header 0))

/-- The inner loop of `deleteColumns` for the header name `h`: the final value
of `toDel`. -/
def toDel (h : String) : List String → Bool
  | [] => false
  | c :: args => if c = h then true else toDel h args

/-- The outer loop of `deleteColumns`, from position `i` on, with `cols` and
`head` as built so far. -/
def deleteLoop (args : List String) : List String → Int → List String × List Int →
    List String × List Int
  | [], _, acc => acc
  | h :: hs, i, (cols, head) =>
    if toDel h args then deleteLoop args hs (i + 1) (cols, head)
    else deleteLoop args hs (i + 1) (cols ++ [h], head ++ [i])

/-- Go `deleteColumns`: the column names of the new table, and the numbers of
the retained columns in the original table.  The argument `read` is the result
of `r.Read()`. -/
def deleteColumns (read : Except ReadError (List String)) (args : List String) :
    Except ReadError (List String × List Int) :=
  match read with
  | .error err => .error err
  | .ok header =>
    -- if no column are given returns an empty head index
    if args.length = 0 then .ok ([], [])
    -- removes the columns found
    else .ok (deleteLoop args header 0 ([], []))

/-- The loop of `colsFn` over `head`: the fields of the new row, an empty
string where `head` has -1; `none` when an index is out of the range of
`nr`. -/
def colsLoop (nr : List String) : List Int → Option (List String)
  | [] => some []
  | h :: head =>
    if h = -1 then (colsLoop nr head).map (fun row => "" :: row)
    else
      match index nr h with
      | none => none
      | some f => (colsLoop nr head).map (fun row => f :: row)

/-- Go `colsFn`: a row with the columns indicated by the `head` slice.  The
argument `read` is the result of `r.Read()`; the result is `none` on a run-time
panic, otherwise the returned row or error. -/
def colsFn (read : Except ReadError (List String)) (head : List Int) :
    Option (Except ReadError (List String)) :=
  match read with
  | .error err => some (.error err)
  | .ok nr =>
    match colsLoop nr head with
    | none => none
    | some row => some (.ok row)

/-! ## A library for the examples -/

/-- The value of a run of ASCII decimal digits, most significant first;
`none` if a character is not an ASCII digit. -/
def digitsValue : List Char → Nat → Option Nat
  | [], n => some n
  | c :: cs, n =>
    if '0' ≤ c ∧ c ≤ '9' then digitsValue cs (10 * n + (c.toNat - '0'.toNat)) else none

/-- A library for the examples.  It agrees with the Go library on ASCII
characters, and on the numeric tokens made of one to fifteen ASCII digits
(whose value is a `float64` without rounding); it accepts no other numeric
token. -/
def asciiLib : Lib where
  isSpace c := c = '\t' ∨ c = '\n' ∨ c = Char.ofNat 11 ∨ c = Char.ofNat 12 ∨ c = '\r' ∨ c = ' '
  isDigit c := '0' ≤ c ∧ c ≤ '9'
  parseFloat s :=
    if s.data = [] ∨ 15 < s.data.length then none
    else (digitsValue s.data 0).map (fun n => Float64.fin n)
  notSpace := by decide
  notDigit := by decide

/-! ## Vocabulary of the statements -/

/-- The six operators of the expression language: the text of each and its
code. -/
def operators : List (String × Int) :=
  [("==", opEqual), ("!=", opDiff), (">", opGreat), (">=", opGreatEqual),
   ("<", opLess), ("<=", opLessEqual)]

/-- One of the four characters `=`, `!`, `>`, `<`. -/
def isOpChar (c : Char) : Prop := c = '=' ∨ c = '!' ∨ c = '>' ∨ c = '<'

instance (c : Char) : Decidable (isOpChar c) := by unfold isOpChar; infer_instance

/-- A run of white space. -/
abbrev Spaces (L : Lib) (w : List Char) : Prop := ∀ c ∈ w, L.isSpace c = true

/-- A text without white space. -/
abbrev NoSpace (L : Lib) (t : List Char) : Prop := ∀ c ∈ t, L.isSpace c = false

/-- A text that can stand as the left column name of an expression: it has
no white space and none of the characters `=`, `!`, `>`, `<`. -/
abbrev ColumnToken (L : Lib) (t : List Char) : Prop :=
  ∀ c ∈ t, L.isSpace c = false ∧ ¬ isOpChar c

/-- The reader in front of the second operand: the end of the text, or a rune
that is not white space and that, when no white space precedes it, is not an
operator character either. -/
def SecondStart (L : Lib) (w2 t : List Char) : Prop :=
  t = [] ∨ ∃ r1 r, t = r1 :: r ∧ L.isSpace r1 = false ∧ (w2 ≠ [] ∨ ¬ isOpChar r1)

/-- The left column-name token of a text: the runes before the first white
space or the first of `=`, `!`, `>`, `<`. -/
def leftToken (L : Lib) (r : List Char) : List Char :=
  r.takeWhile (fun c => !L.isSpace c && !decide (isOpChar c))

/-- The text after the left column-name token and the white space that
follows it. -/
def afterLeft (L : Lib) (r : List Char) : List Char :=
  (r.dropWhile (fun c => !L.isSpace c && !decide (isOpChar c))).dropWhile L.isSpace

/-- The operator token of a text: the maximal run of the characters `=`, `!`,
`>`, `<` after the column name. -/
def operatorToken (L : Lib) (r : List Char) : List Char :=
  (afterLeft L r).takeWhile (fun c => decide (isOpChar c))

/-- The right-hand side of a text: what follows the operator token and the
white space after it. -/
def rightSide (L : Lib) (r : List Char) : List Char :=
  ((afterLeft L r).dropWhile (fun c => decide (isOpChar c))).dropWhile L.isSpace

/-- The token that starts with the rune `r1` followed by the text `r`: the
runes up to the next white space or the end of the text. -/
def tokenOf (L : Lib) (r1 : Char) (r : List Char) : List Char :=
  r1 :: r.takeWhile (fun c => !L.isSpace c)

/-- The right operand of a condition on a row: the right column cell's value
when the condition has a right column, the literal otherwise. -/
def rightOperand (L : Lib) (row : List String) (e : expression) : Option Value :=
  if e.cols.2 ≠ -1 then (index row e.cols.2).bind (getFieldValue L) else some e.value

/-- The comparison of a condition on a row is true: the left cell's value and
the right operand fulfil the operator. -/
def conditionHolds (L : Lib) (row : List String) (e : expression) : Bool :=
  match (index row e.cols.1).bind (getFieldValue L), rightOperand L row e with
  | some val1, some val2 => compare val1 val2 e.op
  | _, _ => false

/-- The cells that a condition refers to exist in the row and are not empty. -/
def CellsNonEmpty (row : List String) (e : expression) : Prop :=
  (∃ f1, index row e.cols.1 = some f1 ∧ f1 ≠ "") ∧
  (e.cols.2 ≠ -1 → ∃ f2, index row e.cols.2 = some f2 ∧ f2 ≠ "")

/-- The header of the sample table of the tests (`colsBlob`). -/
def sampleHeader : List String := ["Item", "Amount", "Cost", "Value", "Description"]

/-- The seven rows of the sample table of the tests (`colsBlob`). -/
def sampleRows : List (List String) :=
  [["1", "3", "50", "150", "rubber gloves"],
   ["2", "100", "5", "500", "test tubes"],
   ["3", "5", "80", "400", "clamps"],
   ["4", "23", "19", "437", "plates"],
   ["5", "99", "24", "2376", "cleaning cloth"],
   ["6", "89", "147", "13083", "bunsen burners"],
   ["7", "5", "175", "875", "scales"]]

/-- The rows of a table that `rowsFn` returns, in order: the loop of
`rowsRun` writes the rows that are returned non-empty. -/
def rowsSelect (L : Lib) (invert : Bool) (exps : List expression)
    (rows : List (List String)) : List (List String) :=
  rows.filter (fun row =>
    match rowsFn L invert (.ok row) exps with
    | some (.ok out) => !out.isEmpty
    | _ => false)

/-- The place of a `float64` that is not a NaN on the number line extended
with the two infinities. -/
def Float64.toExtended : Float64 → WithBot (WithTop ℚ)
  | .nan => ⊥
  | .negInf => ⊥
  | .fin q => ((q : WithTop ℚ) : WithBot (WithTop ℚ))
  | .posInf => ((⊤ : WithTop ℚ) : WithBot (WithTop ℚ))

/-- The right-hand side of a text read as a column name: when the right-hand
side starts with a rune that is not a double quote, a digit, `-` or `.`, the
token that starts there; `none` when the right-hand side is empty, a quoted
string or a number. -/
def rightColumnName (L : Lib) (r : List Char) : Option String :=
  match rightSide L r with
  | [] => none
  | r1 :: rest =>
    if r1 = '"' then none
    else if L.isDigit r1 ∨ r1 = '-' ∨ r1 = '.' then none
    else some (String.mk (tokenOf L r1 rest))

/-- The right-hand side of a text is a column name that is not in the
header. -/
def unresolvedRight (L : Lib) (header : List String) (r : List Char) : Bool :=
  match rightColumnName L r with
  | none => false
  | some d => decide (d ∉ header)

/-! ## Lemmas on the loops of the parser -/

theorem skipExpressionSpaces_spaces (L : Lib) (w : List Char) (r1 : Char) (r : List Char)
    (hw : Spaces L w) (h1 : L.isSpace r1 = false) :
    skipExpressionSpaces L (w ++ r1 :: r) = .ok (r1 :: r) := by
  induction w with
  | nil => simp [skipExpressionSpaces, h1]
  | cons a w ih =>
    have ha : L.isSpace a = true := hw a (by simp)
    have hw2 : Spaces L w := fun c hc => hw c (by simp [hc])
    simp [skipExpressionSpaces, ha, ih hw2]

theorem skipExpressionSpaces_eof (L : Lib) (w : List Char) (hw : Spaces L w) :
    skipExpressionSpaces L w = .error .eof := by
  induction w with
  | nil => simp [skipExpressionSpaces]
  | cons a w ih =>
    have ha : L.isSpace a = true := hw a (by simp)
    have hw2 : Spaces L w := fun c hc => hw c (by simp [hc])
    simp [skipExpressionSpaces, ha, ih hw2]

theorem isSpace_opChar (L : Lib) (o : Char) (ho : isOpChar o) : L.isSpace o = false := by
  apply L.notSpace
  rcases ho with h | h | h | h <;> simp [h]

theorem isDigit_opChar (L : Lib) (o : Char) (ho : isOpChar o) : L.isDigit o = false := by
  apply L.notDigit
  rcases ho with h | h | h | h <;> simp [h]

theorem columnLoop_token (L : Lib) (c : List Char) (b r : List Char) (hc : ColumnToken L c) :
    columnLoop L b (c ++ r) = columnLoop L (b ++ c) r := by
  induction c generalizing b with
  | nil => simp
  | cons a c ih =>
    have ha := hc a (by simp)
    have hc2 : ColumnToken L c := fun x hx => hc x (by simp [hx])
    have hop : ¬ (a = '=' ∨ a = '!' ∨ a = '>' ∨ a = '<') := ha.2
    have h := ih (b ++ [a]) hc2
    simp only [List.cons_append, columnLoop, ha.1, hop, if_false, Bool.false_eq_true]
    simpa using h

theorem columnLoop_stop (L : Lib) (b w : List Char) (o : Char) (r : List Char)
    (hw : Spaces L w) (ho : isOpChar o) :
    columnLoop L b (w ++ o :: r) = .ok (b, o :: r) := by
  have hso := isSpace_opChar L o ho
  have ho2 : (o = '=' ∨ o = '!' ∨ o = '>' ∨ o = '<') := ho
  cases w with
  | nil => simp [columnLoop, hso, ho2]
  | cons a w =>
    have ha : L.isSpace a = true := hw a (by simp)
    have hw2 : Spaces L w := fun c hc => hw c (by simp [hc])
    simp [columnLoop, ha, skipExpressionSpaces_spaces L w o r hw2 hso]

theorem operandLoop_opChar (L : Lib) (b : List Char) (o : Char) (r : List Char)
    (ho : isOpChar o) :
    operandLoop L b (o :: r) = operandLoop L (b ++ [o]) r := by
  have hso := isSpace_opChar L o ho
  have hdo := isDigit_opChar L o ho
  have h1 : ¬ (o ≠ '=' ∧ o ≠ '!' ∧ o ≠ '>' ∧ o ≠ '<') := by
    rcases ho with h | h | h | h <;> simp [h]
  have h2 : o ≠ '"' ∧ o ≠ '-' ∧ o ≠ '.' := by
    rcases ho with h | h | h | h <;> subst h <;> decide
  simp only [operandLoop, hso, hdo, h1, h2.1, h2.2.1, h2.2.2, if_false, Bool.false_eq_true,
    or_self]

theorem operandLoop_stop (L : Lib) (b w : List Char) (r1 : Char) (r : List Char)
    (hw : Spaces L w) (h1 : L.isSpace r1 = false) (h2 : w ≠ [] ∨ ¬ isOpChar r1) :
    operandLoop L b (w ++ r1 :: r) = .ok (b, r1 :: r) := by
  cases w with
  | nil =>
    have h3 : ¬ isOpChar r1 := by simpa using h2
    have h4 : r1 ≠ '=' ∧ r1 ≠ '!' ∧ r1 ≠ '>' ∧ r1 ≠ '<' := by
      unfold isOpChar at h3; push_neg at h3; exact h3
    simp only [List.nil_append, operandLoop, h1, Bool.false_eq_true, if_false]
    split_ifs <;> rfl
  | cons a w =>
    have ha : L.isSpace a = true := hw a (by simp)
    have hw2 : Spaces L w := fun c hc => hw c (by simp [hc])
    simp [operandLoop, ha, skipExpressionSpaces_spaces L w r1 r hw2 h1]

theorem operandLoop_eof (L : Lib) (b w : List Char) (hw : Spaces L w) :
    operandLoop L b w = .error .eof := by
  cases w with
  | nil => simp [operandLoop]
  | cons a w =>
    have ha : L.isSpace a = true := hw a (by simp)
    have hw2 : Spaces L w := fun c hc => hw c (by simp [hc])
    simp [operandLoop, ha, skipExpressionSpaces_eof L w hw2]

theorem operandLoop_opChars (L : Lib) (os : List Char) (b r : List Char)
    (hos : ∀ x ∈ os, isOpChar x) :
    operandLoop L b (os ++ r) = operandLoop L (b ++ os) r := by
  induction os generalizing b with
  | nil => simp
  | cons o os ih =>
    have h := ih (b ++ [o]) (fun x hx => hos x (by simp [hx]))
    rw [List.cons_append, operandLoop_opChar L b o _ (hos o (by simp))]
    simpa using h

theorem parseExpression_operand (L : Lib) (header : List String) (c w1 : List Char)
    (s : String) (op : Int) (w2 t : List Char)
    (hc : ColumnToken L c) (hw1 : Spaces L w1)
    (hs : ∀ x ∈ s.data, isOpChar x) (hne : s.data ≠ []) (hcode : operandCode s = some op)
    (hw2 : Spaces L w2) (ht : SecondStart L w2 t) :
    parseExpression L header (c ++ w1 ++ s.data ++ w2 ++ t)
      = parseSecond L header (String.mk c) op t := by
  obtain ⟨sd⟩ := s
  cases sd with
  | nil => exact absurd rfl hne
  | cons o os =>
    have ho : isOpChar o := hs o (by simp)
    have e1 : c ++ w1 ++ (o :: os) ++ w2 ++ t = c ++ (w1 ++ o :: (os ++ (w2 ++ t))) := by simp
    have e2 : columnLoop L [] (c ++ (w1 ++ o :: (os ++ (w2 ++ t))))
        = .ok (c, (o :: os) ++ (w2 ++ t)) := by
      rw [columnLoop_token L c [] _ hc, columnLoop_stop L _ w1 o _ hw1 ho]
      simp
    have e4 : operandLoop L [] ((o :: os) ++ (w2 ++ t)) = operandLoop L (o :: os) (w2 ++ t) := by
      rw [operandLoop_opChars L (o :: os) [] _ hs]
      simp
    show parseExpression L header (c ++ w1 ++ (o :: os) ++ w2 ++ t) = _
    rw [e1]
    unfold parseExpression
    rw [e2]
    simp only []
    rw [e4]
    rcases ht with rfl | ⟨r1, r, rfl, h1, h2⟩
    · have e5 : operandLoop L (o :: os) (w2 ++ []) = .error .eof := by
        simpa using operandLoop_eof L (o :: os) w2 hw2
      rw [e5]
      simp only [parseSecond]
    · rw [operandLoop_stop L (o :: os) w2 r1 r hw2 h1 h2]
      simp only [hcode]

theorem operators_spec (s : String) (op : Int) (h : (s, op) ∈ operators) :
    (∀ x ∈ s.data, isOpChar x) ∧ s.data ≠ [] ∧ operandCode s = some op := by
  simp only [operators, List.mem_cons, Prod.mk.injEq, List.mem_singleton, List.not_mem_nil,
    or_false] at h
  rcases h with ⟨rfl, rfl⟩ | ⟨rfl, rfl⟩ | ⟨rfl, rfl⟩ | ⟨rfl, rfl⟩ | ⟨rfl, rfl⟩ | ⟨rfl, rfl⟩ <;>
    refine ⟨by decide, by decide, by rfl⟩

/-- The parse of `c w1 s w2 t`, for a column token `c`, one of the six
operators `s` and runs of white space `w1`, `w2`, is the parse of the second
operand on `t`. -/
theorem parseExpression_tokens (L : Lib) (header : List String) (c w1 : List Char)
    (s : String) (op : Int) (w2 t : List Char)
    (hc : ColumnToken L c) (hw1 : Spaces L w1) (hop : (s, op) ∈ operators)
    (hw2 : Spaces L w2) (ht : SecondStart L w2 t) :
    parseExpression L header (c ++ w1 ++ s.data ++ w2 ++ t)
      = parseSecond L header (String.mk c) op t := by
  obtain ⟨h1, h2, h3⟩ := operators_spec s op hop
  exact parseExpression_operand L header c w1 s op w2 t hc hw1 h1 h2 h3 hw2 ht

theorem tokenLoop_noSpace (L : Lib) (b : List Char) (r1 : Char) (r : List Char)
    (hr : NoSpace L r) : tokenLoop L b r1 r = b ++ r1 :: r := by
  induction r generalizing b r1 with
  | nil => simp [tokenLoop]
  | cons a r ih =>
    have ha : L.isSpace a = false := hr a (by simp)
    have h := ih (b ++ [r1]) a (fun x hx => hr x (by simp [hx]))
    simp only [tokenLoop, ha, Bool.false_eq_true, if_false]
    simpa using h

theorem split_spaces (L : Lib) (r : List Char) :
    ∃ ws t, r = ws ++ t ∧ Spaces L ws ∧
      (t = [] ∨ ∃ r1 rest, t = r1 :: rest ∧ L.isSpace r1 = false) := by
  induction r with
  | nil => exact ⟨[], [], rfl, fun _ h => absurd h (List.not_mem_nil _), Or.inl rfl⟩
  | cons a r ih =>
    by_cases ha : L.isSpace a = true
    · obtain ⟨ws, t, h1, h2, h3⟩ := ih
      refine ⟨a :: ws, t, by simp [h1], ?_, h3⟩
      intro x hx
      rcases List.mem_cons.mp hx with rfl | hx
      · exact ha
      · exact h2 x hx
    · refine ⟨[], a :: r, rfl, fun _ h => absurd h (List.not_mem_nil _), Or.inr ⟨a, r, rfl, ?_⟩⟩
      simpa using ha

/-! ## Lemmas on the header loop -/

theorem headerLoop_fst_not_mem (col1 col2 : String) (hs : List String) (i : Int)
    (cols : Int × Int) (h : col1 ∉ hs) : (headerLoop col1 col2 hs i cols).1 = cols.1 := by
  induction hs generalizing i cols with
  | nil => rfl
  | cons a hs ih =>
    have h1 : ¬ a = col1 := fun e => h (by simp [e])
    have h2 : col1 ∉ hs := fun e => h (by simp [e])
    simp only [headerLoop, h1, if_false]
    rw [ih _ _ h2]
    split_ifs <;> rfl

theorem headerLoop_snd_not_mem (col1 col2 : String) (hs : List String) (i : Int)
    (cols : Int × Int) (h : col2 ∉ hs) : (headerLoop col1 col2 hs i cols).2 = cols.2 := by
  induction hs generalizing i cols with
  | nil => rfl
  | cons a hs ih =>
    have h1 : ¬ a = col2 := fun e => h (by simp [e])
    have h2 : col2 ∉ hs := fun e => h (by simp [e])
    simp only [headerLoop, h1, if_false]
    rw [ih _ _ h2]
    split_ifs <;> rfl

theorem headerLoop_fst_nodup (col1 col2 : String) (hs : List String) (i : Int)
    (cols : Int × Int) (hn : hs.Nodup) (h : col1 ∈ hs) :
    (headerLoop col1 col2 hs i cols).1 = i + (hs.indexOf col1 : Int) := by
  induction hs generalizing i cols with
  | nil => exact absurd h (List.not_mem_nil _)
  | cons a hs ih =>
    have hn2 := List.nodup_cons.mp hn
    by_cases h1 : a = col1
    · subst h1
      simp only [headerLoop, if_true]
      rw [headerLoop_fst_not_mem _ _ _ _ _ hn2.1]
      have : (if a = col2 then (i, i) else (i, cols.2)).1 = i := by split_ifs <;> rfl
      simp [this]
    · have h2 : col1 ∈ hs := by
        rcases List.mem_cons.mp h with e | e
        · exact absurd e.symm h1
        · exact e
      simp only [headerLoop, h1, if_false]
      rw [ih _ _ hn2.2 h2, List.indexOf_cons_ne _ h1]
      push_cast
      ring

theorem headerLoop_snd_nodup (col1 col2 : String) (hs : List String) (i : Int)
    (cols : Int × Int) (hn : hs.Nodup) (h : col2 ∈ hs) :
    (headerLoop col1 col2 hs i cols).2 = i + (hs.indexOf col2 : Int) := by
  induction hs generalizing i cols with
  | nil => exact absurd h (List.not_mem_nil _)
  | cons a hs ih =>
    have hn2 := List.nodup_cons.mp hn
    by_cases h1 : a = col2
    · subst h1
      simp only [headerLoop, if_true]
      rw [headerLoop_snd_not_mem _ _ _ _ _ hn2.1]
      simp
    · have h2 : col2 ∈ hs := by
        rcases List.mem_cons.mp h with e | e
        · exact absurd e.symm h1
        · exact e
      simp only [headerLoop, h1, if_false]
      rw [ih _ _ hn2.2 h2, List.indexOf_cons_ne _ h1]
      push_cast
      ring

theorem headerLoop_fst_mem (col1 col2 : String) (hs : List String) (i : Int)
    (cols : Int × Int) (h : col1 ∈ hs) : i ≤ (headerLoop col1 col2 hs i cols).1 := by
  induction hs generalizing i cols with
  | nil => exact absurd h (List.not_mem_nil _)
  | cons a hs ih =>
    by_cases h2 : col1 ∈ hs
    · have := ih (i + 1) (if a = col2 then ((if a = col1 then (i, cols.2) else cols).1, i)
        else (if a = col1 then (i, cols.2) else cols)) h2
      simp only [headerLoop]
      omega
    · have h1 : a = col1 := by
        rcases List.mem_cons.mp h with e | e
        · exact e.symm
        · exact absurd e h2
      simp only [headerLoop, h1, if_true]
      rw [headerLoop_fst_not_mem _ _ _ _ _ h2]
      split_ifs <;> simp

theorem parseSecond_number (L : Lib) (header : List String) (col1 : String) (op : Int)
    (n : String) (x : Float64) (d : Char) (r : List Char) (hn : n.data = d :: r)
    (hd : L.isDigit d = true ∨ d = '-' ∨ d = '.') (hns : NoSpace L n.data)
    (hx : L.parseFloat n = some x) :
    parseSecond L header col1 op n.data =
      if (headerLoop col1 "" header 0 (-1, -1)).1 = -1 then .error .invalidColumn
      else .ok { cols := headerLoop col1 "" header 0 (-1, -1), op := op, value := .num x } := by
  have hq : d ≠ '"' := by
    rintro rfl
    rcases hd with h | h | h
    · rw [L.notDigit _ (by simp)] at h
      exact absurd h (by simp)
    · exact absurd h (by decide)
    · exact absurd h (by decide)
  have hr : NoSpace L r := fun c hc => hns c (by simp [hn, hc])
  have ht : String.mk (tokenLoop L [] d r) = n := by
    rw [tokenLoop_noSpace L [] d r hr]
    simp [← hn]
  rw [hn]
  simp only [parseSecond, secondOperand, hq, if_false, hd, if_true, ht, hx]

theorem parseSecond_column (L : Lib) (header : List String) (col1 : String) (op : Int)
    (n : String) (d : Char) (r : List Char) (hn : n.data = d :: r)
    (hd : L.isDigit d = false ∧ d ≠ '-' ∧ d ≠ '.' ∧ d ≠ '"') (hns : NoSpace L n.data) :
    parseSecond L header col1 op n.data =
      if (headerLoop col1 n header 0 (-1, -1)).1 = -1 then .error .invalidColumn
      else .ok { cols := headerLoop col1 n header 0 (-1, -1), op := op, value := .nil } := by
  have hr : NoSpace L r := fun c hc => hns c (by simp [hn, hc])
  have ht : String.mk (tokenLoop L [] d r) = n := by
    rw [tokenLoop_noSpace L [] d r hr]
    simp [← hn]
  rw [hn]
  simp only [parseSecond, secondOperand, hd.1, hd.2.1, hd.2.2.1, hd.2.2.2, if_false, ht,
    Bool.false_eq_true, or_self]

theorem parseSecond_literal (L : Lib) (header : List String) (col1 : String) (op : Int)
    (t : List Char) (e : expression) (hne : "" ∉ header)
    (h : parseSecond L header col1 op t = .ok e) (hv : e.value ≠ .nil) : e.cols.2 = -1 := by
  cases t with
  | nil => simp [parseSecond] at h
  | cons r1 r =>
    have key : ∀ (v : Value) (c2 : String),
        (if (headerLoop col1 c2 header 0 (-1, -1)).1 = -1 then .error .invalidColumn
          else (.ok { cols := headerLoop col1 c2 header 0 (-1, -1), op := op, value := v } :
            Except ParseError expression)) = .ok e →
        e.value = v ∧ e.cols.2 = (headerLoop col1 c2 header 0 (-1, -1)).2 := by
      intro v c2 hk
      split_ifs at hk
      cases hk
      exact ⟨rfl, rfl⟩
    simp only [parseSecond, secondOperand] at h
    by_cases h1 : r1 = '"'
    · simp only [h1, if_true] at h
      rw [(key _ _ h).2]
      exact headerLoop_snd_not_mem _ _ _ _ _ hne
    · simp only [h1, if_false] at h
      by_cases h2 : L.isDigit r1 = true ∨ r1 = '-' ∨ r1 = '.'
      · simp only [h2, if_true] at h
        cases hp : L.parseFloat (String.mk (tokenLoop L [] r1 r)) with
        | none => simp [hp] at h
        | some x =>
          simp only [hp] at h
          rw [(key _ _ h).2]
          exact headerLoop_snd_not_mem _ _ _ _ _ hne
      · simp only [h2, if_false] at h
        exact absurd (key _ _ h).1 hv

theorem parseExpression_ok_parseSecond (L : Lib) (header : List String) (r : List Char)
    (e : expression) (h : parseExpression L header r = .ok e) :
    ∃ col1 op t, parseSecond L header col1 op t = .ok e := by
  unfold parseExpression at h
  split at h
  · simp at h
  · split at h
    · simp at h
    · split at h
      · simp at h
      · exact ⟨_, _, _, h⟩

theorem skipExpressionSpaces_ok (L : Lib) (r r2 : List Char)
    (h : skipExpressionSpaces L r = .ok r2) : r2 = r.dropWhile L.isSpace := by
  induction r with
  | nil => simp [skipExpressionSpaces] at h
  | cons a r ih =>
    by_cases ha : L.isSpace a = true
    · simp only [skipExpressionSpaces, ha, if_true] at h
      simpa [List.dropWhile_cons, ha] using ih h
    · have ha2 : L.isSpace a = false := by simpa using ha
      simp only [skipExpressionSpaces, ha2, Bool.false_eq_true, if_false, Except.ok.injEq] at h
      simp [List.dropWhile_cons, ha2, ← h]

theorem columnLoop_ok (L : Lib) (b r b1 r1 : List Char)
    (h : columnLoop L b r = .ok (b1, r1)) : b1 = b ++ leftToken L r ∧ r1 = afterLeft L r := by
  induction r generalizing b with
  | nil => simp [columnLoop] at h
  | cons a r ih =>
    by_cases ha : L.isSpace a = true
    · simp only [columnLoop, ha, if_true] at h
      cases hs : skipExpressionSpaces L r with
      | error err => simp [hs] at h
      | ok r2 =>
        simp only [hs, Except.ok.injEq, Prod.mk.injEq] at h
        have h2 := skipExpressionSpaces_ok L r r2 hs
        refine ⟨by simp [leftToken, List.takeWhile_cons, ha, h.1], ?_⟩
        simp [afterLeft, List.dropWhile_cons, ha, ← h.2, h2]
    · have ha2 : L.isSpace a = false := by simpa using ha
      by_cases ho : a = '=' ∨ a = '!' ∨ a = '>' ∨ a = '<'
      · simp only [columnLoop, ha2, Bool.false_eq_true, if_false, ho, if_true, Except.ok.injEq,
          Prod.mk.injEq] at h
        have ho2 : isOpChar a := ho
        refine ⟨by simp [leftToken, List.takeWhile_cons, ho2, h.1], ?_⟩
        simp [afterLeft, List.dropWhile_cons, ha2, ho2, ← h.2]
      · simp only [columnLoop, ha2, Bool.false_eq_true, if_false, ho] at h
        have ho2 : ¬ isOpChar a := ho
        obtain ⟨h1, h2⟩ := ih _ h
        refine ⟨by simp [leftToken, List.takeWhile_cons, ha2, ho2, h1], ?_⟩
        simp [afterLeft, List.dropWhile_cons, ha2, ho2, h2]

theorem operandLoop_ok (L : Lib) (b r b2 r2 : List Char)
    (h : operandLoop L b r = .ok (b2, r2)) :
    b2 = b ++ r.takeWhile (fun c => decide (isOpChar c)) ∧
    r2 = (r.dropWhile (fun c => decide (isOpChar c))).dropWhile L.isSpace := by
  induction r generalizing b with
  | nil => simp [operandLoop] at h
  | cons a r ih =>
    by_cases ho : isOpChar a
    · rw [operandLoop_opChar L b a r ho] at h
      obtain ⟨h1, h2⟩ := ih _ h
      refine ⟨by simp [List.takeWhile_cons, ho, h1], ?_⟩
      simp [List.dropWhile_cons, ho, h2]
    · have ho3 : a ≠ '=' ∧ a ≠ '!' ∧ a ≠ '>' ∧ a ≠ '<' := by
        unfold isOpChar at ho; push_neg at ho; exact ho
      by_cases ha : L.isSpace a = true
      · simp only [operandLoop, ha, if_true] at h
        cases hs : skipExpressionSpaces L r with
        | error err => simp [hs] at h
        | ok r3 =>
          simp only [hs, Except.ok.injEq, Prod.mk.injEq] at h
          have h2 := skipExpressionSpaces_ok L r r3 hs
          refine ⟨by simp [List.takeWhile_cons, ho, h.1], ?_⟩
          simp [List.dropWhile_cons, ho, ha, ← h.2, h2]
      · have ha2 : L.isSpace a = false := by simpa using ha
        have h4 : (a ≠ '=' ∧ a ≠ '!' ∧ a ≠ '>' ∧ a ≠ '<') = True := eq_true ho3
        have h3 : operandLoop L b (a :: r) = .ok (b, a :: r) := by
          simp only [operandLoop, ha2, Bool.false_eq_true, if_false, h4, if_true]
          split_ifs <;> rfl
        rw [h3] at h
        simp only [Except.ok.injEq, Prod.mk.injEq] at h
        refine ⟨by simp [List.takeWhile_cons, ho, h.1], ?_⟩
        simp [List.dropWhile_cons, ho, ha2, ← h.2]

theorem tokenLoop_eq (L : Lib) (b : List Char) (r1 : Char) (r : List Char) :
    tokenLoop L b r1 r = b ++ tokenOf L r1 r := by
  induction r generalizing b r1 with
  | nil => simp [tokenLoop, tokenOf]
  | cons a r ih =>
    by_cases ha : L.isSpace a = true
    · simp [tokenLoop, tokenOf, List.takeWhile_cons, ha]
    · have h := ih (b ++ [r1]) a
      simp only [tokenLoop, ha, if_false]
      simp only [tokenOf] at h ⊢
      simp [List.takeWhile_cons, ha, h]

theorem quotedLoop_closed (b s rest : List Char) (hs : '"' ∉ s) :
    quotedLoop b (s ++ '"' :: rest) = b ++ s := by
  induction s generalizing b with
  | nil => simp [quotedLoop]
  | cons a s ih =>
    have ha : a ≠ '"' := fun e => hs (by simp [e])
    have h := ih (b ++ [a]) (fun e => hs (by simp [e]))
    simp only [List.cons_append, quotedLoop, ha, if_false]
    simpa using h

theorem quotedLoop_open (b s : List Char) (hs : '"' ∉ s) : quotedLoop b s = b ++ s := by
  induction s generalizing b with
  | nil => simp [quotedLoop]
  | cons a s ih =>
    have ha : a ≠ '"' := fun e => hs (by simp [e])
    have h := ih (b ++ [a]) (fun e => hs (by simp [e]))
    simp only [quotedLoop, ha, if_false]
    simpa using h

theorem headerLoop_fst_spec (col1 col2 : String) (hs : List String) (i : Int)
    (cols : Int × Int) :
    (headerLoop col1 col2 hs i cols).1 = cols.1 ∨
    ∃ k : Nat, (headerLoop col1 col2 hs i cols).1 = i + k ∧ hs[k]? = some col1 := by
  induction hs generalizing i cols with
  | nil => exact Or.inl rfl
  | cons a hs ih =>
    simp only [headerLoop]
    rcases ih (i + 1) (if a = col2 then ((if a = col1 then (i, cols.2) else cols).1, i)
        else (if a = col1 then (i, cols.2) else cols)) with h | ⟨k, h1, h2⟩
    · rw [h]
      by_cases h1 : a = col1
      · refine Or.inr ⟨0, ?_, by simp [h1]⟩
        split_ifs <;> simp
      · refine Or.inl ?_
        split_ifs <;> simp
    · refine Or.inr ⟨k + 1, ?_, by simpa using h2⟩
      rw [h1]
      push_cast
      ring

theorem headerLoop_snd_spec (col1 col2 : String) (hs : List String) (i : Int)
    (cols : Int × Int) :
    (headerLoop col1 col2 hs i cols).2 = cols.2 ∨
    ∃ k : Nat, (headerLoop col1 col2 hs i cols).2 = i + k ∧ hs[k]? = some col2 := by
  induction hs generalizing i cols with
  | nil => exact Or.inl rfl
  | cons a hs ih =>
    simp only [headerLoop]
    rcases ih (i + 1) (if a = col2 then ((if a = col1 then (i, cols.2) else cols).1, i)
        else (if a = col1 then (i, cols.2) else cols)) with h | ⟨k, h1, h2⟩
    · rw [h]
      by_cases h1 : a = col2
      · refine Or.inr ⟨0, ?_, by simp [h1]⟩
        split_ifs <;> simp
      · refine Or.inl ?_
        split_ifs <;> simp
    · refine Or.inr ⟨k + 1, ?_, by simpa using h2⟩
      rw [h1]
      push_cast
      ring

theorem index_natCast (row : List String) (k : Nat) : index row (k : Int) = row[k]? := by
  simp [index]

theorem parseExpression_ok_inv (L : Lib) (header : List String) (r : List Char)
    (e : expression) (h : parseExpression L header r = .ok e) :
    ∃ op, operandCode (String.mk (operatorToken L r)) = some op ∧
      parseSecond L header (String.mk (leftToken L r)) op (rightSide L r) = .ok e := by
  unfold parseExpression at h
  cases hc : columnLoop L [] r with
  | error err => simp [hc] at h
  | ok p1 =>
    obtain ⟨b1, r1⟩ := p1
    obtain ⟨hb1, hr1⟩ := columnLoop_ok L [] r b1 r1 hc
    simp only [hc] at h
    cases ho : operandLoop L [] r1 with
    | error err => simp [ho] at h
    | ok p2 =>
      obtain ⟨b2, r2⟩ := p2
      obtain ⟨hb2, hr2⟩ := operandLoop_ok L [] r1 b2 r2 ho
      simp only [ho] at h
      have e1 : b1 = leftToken L r := by simpa using hb1
      have e2 : b2 = operatorToken L r := by simpa [operatorToken, hr1] using hb2
      have e3 : r2 = rightSide L r := by simpa [rightSide, hr1] using hr2
      subst e1 e2 e3
      cases hk : operandCode (String.mk (operatorToken L r)) with
      | none => simp [hk] at h
      | some op =>
        simp only [hk] at h
        exact ⟨op, rfl, h⟩

theorem parseSecond_ok_inv (L : Lib) (header : List String) (col1 : String) (op : Int)
    (t : List Char) (e : expression) (h : parseSecond L header col1 op t = .ok e) :
    ∃ r1 rest val col2, t = r1 :: rest ∧ secondOperand L r1 rest = .ok (val, col2) ∧
      e = { cols := headerLoop col1 col2 header 0 (-1, -1), op := op, value := val } ∧
      (headerLoop col1 col2 header 0 (-1, -1)).1 ≠ -1 := by
  cases t with
  | nil => simp [parseSecond] at h
  | cons r1 rest =>
    simp only [parseSecond] at h
    cases hs : secondOperand L r1 rest with
    | error err => simp [hs] at h
    | ok p =>
      obtain ⟨val, col2⟩ := p
      simp only [hs] at h
      by_cases hk : (headerLoop col1 col2 header 0 (-1, -1)).1 = -1
      · simp [hk] at h
      · simp only [hk, if_false, Except.ok.injEq] at h
        exact ⟨r1, rest, val, col2, rfl, hs, h.symm, hk⟩

theorem parseSecond_ok_left (L : Lib) (header : List String) (col1 : String) (op : Int)
    (t : List Char) (e : expression) (h : parseSecond L header col1 op t = .ok e) :
    e.op = op ∧ 0 ≤ e.cols.1 ∧ index header e.cols.1 = some col1 := by
  obtain ⟨r1, rest, val, col2, _, _, he, hk⟩ := parseSecond_ok_inv L header col1 op t e h
  subst he
  rcases headerLoop_fst_spec col1 col2 header 0 (-1, -1) with h1 | ⟨k, h1, h2⟩
  · exact absurd h1 hk
  · refine ⟨rfl, ?_, ?_⟩
    · show 0 ≤ (headerLoop col1 col2 header 0 (-1, -1)).1
      rw [h1]; omega
    · show index header (headerLoop col1 col2 header 0 (-1, -1)).1 = some col1
      rw [h1, zero_add, index_natCast, h2]

theorem parseSecond_quoted (L : Lib) (header : List String) (col1 : String) (op : Int)
    (s tail : List Char) (hs : '"' ∉ s) (ht : tail = [] ∨ ∃ rest, tail = '"' :: rest) :
    parseSecond L header col1 op ('"' :: (s ++ tail)) =
      if (headerLoop col1 "" header 0 (-1, -1)).1 = -1 then .error .invalidColumn
      else .ok { cols := headerLoop col1 "" header 0 (-1, -1), op := op,
                 value := .str (String.mk s) } := by
  have hq : quotedLoop [] (s ++ tail) = s := by
    rcases ht with rfl | ⟨rest, rfl⟩
    · simpa using quotedLoop_open [] s hs
    · simpa using quotedLoop_closed [] s rest hs
  simp only [parseSecond, secondOperand, if_true, hq]

theorem headerLoop_fst_index (col1 col2 : String) (hs : List String) (h : col1 ∈ hs) :
    ∃ k : Nat, (headerLoop col1 col2 hs 0 (-1, -1)).1 = k ∧ hs[k]? = some col1 := by
  rcases headerLoop_fst_spec col1 col2 hs 0 (-1, -1) with h1 | ⟨k, h1, h2⟩
  · have := headerLoop_fst_mem col1 col2 hs 0 (-1, -1) h
    rw [h1] at this
    omega
  · exact ⟨k, by simpa using h1, h2⟩

theorem operandCode_some (s : String) (op : Int) (h : operandCode s = some op) :
    (s, op) ∈ operators := by
  unfold operandCode at h
  split_ifs at h with h1 h2 h3 h4 h5 h6 <;> cases h <;> subst_vars <;> simp [operators]

theorem secondStart_quote (L : Lib) (w2 t : List Char) : SecondStart L w2 ('"' :: t) :=
  Or.inr ⟨'"', t, rfl, L.notSpace _ (by simp), Or.inr (by decide)⟩

/-! ## Lemmas on the row evaluator -/

theorem getFieldValue_nonEmpty (L : Lib) (f : String) (hf : f ≠ "") :
    ∃ v, getFieldValue L f = some v ∧ v ≠ .nil := by
  obtain ⟨d⟩ := f
  cases d with
  | nil => exact absurd rfl hf
  | cons r1 rest =>
    simp only [getFieldValue]
    split_ifs
    · cases L.parseFloat (String.mk (r1 :: rest)) with
      | none => exact ⟨_, rfl, by simp⟩
      | some x => exact ⟨_, rfl, by simp⟩
    · exact ⟨_, rfl, by simp⟩

theorem selLoop_cons (L : Lib) (row : List String) (e : expression) (exps : List expression)
    (h : CellsNonEmpty row e) :
    selLoop L row (e :: exps)
      = if conditionHolds L row e = true then some true else selLoop L row exps := by
  obtain ⟨⟨f1, hi1, hf1⟩, h2⟩ := h
  obtain ⟨v1, hv1, hn1⟩ := getFieldValue_nonEmpty L f1 hf1
  have e1 : (index row e.cols.1).bind (getFieldValue L) = some v1 := by
    rw [hi1]; exact hv1
  have e2 : ∃ v2, rightOperand L row e = some v2 := by
    by_cases hc : e.cols.2 ≠ -1
    · obtain ⟨f2, hi2, hf2⟩ := h2 hc
      obtain ⟨v2, hv2, _⟩ := getFieldValue_nonEmpty L f2 hf2
      exact ⟨v2, by rw [rightOperand, if_pos hc, hi2]; exact hv2⟩
    · exact ⟨e.value, by rw [rightOperand, if_neg hc]⟩
  obtain ⟨v2, hv2⟩ := e2
  have e3 : conditionHolds L row e = compare v1 v2 e.op := by
    simp only [conditionHolds, e1, hv2]
  have e4 : (if e.cols.2 ≠ -1 then (index row e.cols.2).bind (getFieldValue L)
      else some e.value) = some v2 := hv2
  rw [e3]
  cases v1 with
  | nil => exact absurd rfl hn1
  | str a => simp only [selLoop, e1, e4]
  | num a => simp only [selLoop, e1, e4]

theorem selLoop_any (L : Lib) (row : List String) (exps : List expression)
    (h : ∀ e ∈ exps, CellsNonEmpty row e) :
    selLoop L row exps = some (exps.any (conditionHolds L row)) := by
  induction exps with
  | nil => rfl
  | cons e exps ih =>
    rw [selLoop_cons L row e exps (h e (by simp)), ih (fun x hx => h x (by simp [hx]))]
    by_cases hc : conditionHolds L row e = true <;> simp [hc]

/-! ## Lemmas on the comparison of numbers -/

theorem Float64.eq_symm (x w : Float64) : Float64.eq x w = Float64.eq w x := by
  cases x <;> cases w <;> simp [Float64.eq]
  exact eq_comm

theorem Float64.eq_iff (x w : Float64) (hx : x ≠ .nan) (hw : w ≠ .nan) :
    Float64.eq x w = true ↔ x = w := by
  cases x <;> cases w <;> simp [Float64.eq] at hx hw ⊢

theorem Float64.lt_iff (x w : Float64) (hx : x ≠ .nan) (hw : w ≠ .nan) :
    Float64.lt x w = true ↔ x.toExtended < w.toExtended := by
  cases x <;> cases w <;> simp [Float64.lt, Float64.toExtended] at hx hw ⊢
  exact lt_top_iff_ne_top.mpr (by simp)

theorem Float64.toExtended_inj (x w : Float64) (hx : x ≠ .nan) (hw : w ≠ .nan) :
    x.toExtended = w.toExtended ↔ x = w := by
  cases x <;> cases w <;> simp [Float64.toExtended] at hx hw ⊢

theorem Float64.le_iff (x w : Float64) (hx : x ≠ .nan) (hw : w ≠ .nan) :
    Float64.le x w = true ↔ x.toExtended ≤ w.toExtended := by
  rw [Float64.le, Bool.or_eq_true, Float64.lt_iff x w hx hw, Float64.eq_iff x w hx hw,
    le_iff_lt_or_eq, Float64.toExtended_inj x w hx hw]

theorem headerLoop_snd_mem (col1 col2 : String) (hs : List String) (i : Int)
    (cols : Int × Int) (h : col2 ∈ hs) : i ≤ (headerLoop col1 col2 hs i cols).2 := by
  induction hs generalizing i cols with
  | nil => exact absurd h (List.not_mem_nil _)
  | cons a hs ih =>
    by_cases h2 : col2 ∈ hs
    · have := ih (i + 1) (if a = col2 then ((if a = col1 then (i, cols.2) else cols).1, i)
        else (if a = col1 then (i, cols.2) else cols)) h2
      simp only [headerLoop]
      omega
    · have h1 : a = col2 := by
        rcases List.mem_cons.mp h with e | e
        · exact e.symm
        · exact absurd e h2
      simp only [headerLoop, h1, if_true]
      rw [headerLoop_snd_not_mem _ _ _ _ _ h2]

/-! ## Properties of the comparison -/

/-- C1, what the code does: for every string `s` and every number `x`,
`compare(s, x, op)` is true for `opLess` but false for `opLessEqual`, and false
for `opGreat` and `opGreatEqual`; so `compare("50", 50.0, opLessEqual)` is
false, although a string is said to be smaller than a number. -/
theorem C1_string_against_number :
    (∀ (s : String) (x : Float64),
      compare (.str s) (.num x) opLess = true ∧
      compare (.str s) (.num x) opLessEqual = false ∧
      compare (.str s) (.num x) opGreat = false ∧
      compare (.str s) (.num x) opGreatEqual = false) ∧
    compare (.str "50") (.num (.fin 50)) opLessEqual = false := by
  refine ⟨fun s x => ⟨rfl, rfl, rfl, rfl⟩, rfl⟩

/-- C2, what the code does: for every number `x` and every string `s`,
`compare(x, s, op)` is true for `opGreat` but false for `opGreatEqual`, and
false for `opLess` and `opLessEqual`; so `compare(50.0, "50", opGreatEqual)` is
false, although a number is said to be greater than a string. -/
theorem C2_number_against_string :
    (∀ (x : Float64) (s : String),
      compare (.num x) (.str s) opGreat = true ∧
      compare (.num x) (.str s) opGreatEqual = false ∧
      compare (.num x) (.str s) opLess = false ∧
      compare (.num x) (.str s) opLessEqual = false) ∧
    compare (.num (.fin 50)) (.str "50") opGreatEqual = false := by
  refine ⟨fun x s => ⟨rfl, rfl, rfl, rfl⟩, rfl⟩

/-- C3: for a string and a number, in either order, `compare` with `opEqual`
is false and `compare` with `opDiff` is true. -/
theorem C3_mixed_types_equality (s : String) (x : Float64) :
    compare (.str s) (.num x) opEqual = false ∧
    compare (.str s) (.num x) opDiff = true ∧
    compare (.num x) (.str s) opEqual = false ∧
    compare (.num x) (.str s) opDiff = true :=
  ⟨rfl, rfl, rfl, rfl⟩

/-! ## Properties of the row evaluator -/

/-- C4, what the code does: with the header `a, b`, the expression `a==1`
parses, and evaluating it on the row whose first cell is the empty string and
whose second cell is `x` is a run-time panic, because `getFieldValue` takes the
first rune of the empty cell. -/
theorem C4_empty_cell_panics :
    parseExpression asciiLib ["a", "b"] "a==1".data
      = .ok { cols := (0, -1), op := opEqual, value := .num (.fin 1) } ∧
    getFieldValue asciiLib "" = none ∧
    rowsFn asciiLib false (.ok ["", "x"])
        [{ cols := (0, -1), op := opEqual, value := .num (.fin 1) }]
      = none :=
  ⟨rfl, rfl, rfl⟩

/-- C5, what the code does: with the header `cost`, the right column `zzz` of
`cost != zzz`, `cost < zzz` and `cost > zzz` is not in the header; each text
parses to a condition without right column and without literal, and `rowsFn`
returns the row with cell `5` for `!=` and for `>`, and the row with cell `abc`
for `<`: the absent right operand is compared as a value of the other type,
whereas an absent left operand matches nothing. -/
theorem C5_unresolved_right_column_selects :
    "zzz" ∉ ["cost"] ∧
    (parseExpression asciiLib ["cost"] "cost != zzz".data
        = .ok { cols := (0, -1), op := opDiff, value := .nil } ∧
      getFieldValue asciiLib "5" = some (.num (.fin 5)) ∧
      compare (.num (.fin 5)) .nil opDiff = true ∧
      rowsFn asciiLib false (.ok ["5"]) [{ cols := (0, -1), op := opDiff, value := .nil }]
        = some (.ok ["5"])) ∧
    (parseExpression asciiLib ["cost"] "cost < zzz".data
        = .ok { cols := (0, -1), op := opLess, value := .nil } ∧
      getFieldValue asciiLib "abc" = some (.str "abc") ∧
      compare (.str "abc") .nil opLess = true ∧
      rowsFn asciiLib false (.ok ["abc"]) [{ cols := (0, -1), op := opLess, value := .nil }]
        = some (.ok ["abc"])) ∧
    (parseExpression asciiLib ["cost"] "cost > zzz".data
        = .ok { cols := (0, -1), op := opGreat, value := .nil } ∧
      compare (.num (.fin 5)) .nil opGreat = true ∧
      rowsFn asciiLib false (.ok ["5"]) [{ cols := (0, -1), op := opGreat, value := .nil }]
        = some (.ok ["5"])) ∧
    (compare .nil (.num (.fin 5)) opDiff = false ∧
      compare .nil (.str "abc") opGreat = false ∧
      compare .nil (.num (.fin 5)) opLess = false) :=
  ⟨by decide, ⟨rfl, rfl, rfl, rfl⟩, ⟨rfl, rfl, rfl, rfl⟩, ⟨rfl, rfl, rfl⟩, ⟨rfl, rfl, rfl⟩⟩

/-! ## Properties of the parser -/

/-- C6, what the code does: the loop over the header has no `break`, so a
name that occurs twice resolves to its last position: `a==1` against the header
`a, a` gives the left column 1, and `a<b` against `a, b, b` the right column
2. -/
theorem C6_last_match_wins :
    parseExpression asciiLib ["a", "a"] "a==1".data
      = .ok { cols := (1, -1), op := opEqual, value := .num (.fin 1) } ∧
    parseExpression asciiLib ["a", "b", "b"] "a<b".data
      = .ok { cols := (0, 2), op := opLess, value := .nil } :=
  ⟨rfl, rfl⟩

/-- C7 as stated is false: `cost<zzz` against the header `cost` parses, and
the condition has neither a right column nor a literal; and `cost>50` against
the header `cost` and the empty name parses, and the condition has both the
right column 1 and the literal 50. -/
theorem C7_counterexample :
    (∃ e, parseExpression asciiLib ["cost"] "cost<zzz".data = .ok e ∧
      e.cols.2 = -1 ∧ e.value = .nil) ∧
    (∃ e, parseExpression asciiLib ["cost", ""] "cost>50".data = .ok e ∧
      e.cols.2 = 1 ∧ e.value = .num (.fin 50)) :=
  ⟨⟨{ cols := (0, -1), op := opLess, value := .nil }, rfl, rfl, rfl⟩,
   ⟨{ cols := (0, 1), op := opGreat, value := .num (.fin 50) }, rfl, rfl, rfl⟩⟩

/-- C7 as amended: for a header without an empty name, a condition returned
by `parseExpression` has exactly one of a right column (`cols[1]` is not -1)
and a literal (`value` is a number or a string), unless the right-hand side of
the text is a column name that is not in the header: then it has neither. -/
theorem C7_exactly_one_unless_unresolved (L : Lib) (header : List String) (r : List Char)
    (e : expression) (hne : "" ∉ header) (h : parseExpression L header r = .ok e) :
    (unresolvedRight L header r = true → e.cols.2 = -1 ∧ e.value = .nil) ∧
    (unresolvedRight L header r = false →
      (e.cols.2 ≠ -1 ∧ e.value = .nil) ∨ (e.cols.2 = -1 ∧ e.value ≠ .nil)) := by
  obtain ⟨op, _, h2⟩ := parseExpression_ok_inv L header r e h
  obtain ⟨r1, rest, val, col2, ht, hs, he, _⟩ := parseSecond_ok_inv L header _ op _ e h2
  subst he
  have hlit : (headerLoop (String.mk (leftToken L r)) "" header 0 (-1, -1)).2 = -1 :=
    headerLoop_snd_not_mem _ _ _ _ _ hne
  by_cases h1 : r1 = '"'
  · have hu : unresolvedRight L header r = false := by
      simp [unresolvedRight, rightColumnName, ht, h1]
    simp only [secondOperand, h1, if_true, Except.ok.injEq, Prod.mk.injEq] at hs
    obtain ⟨hv, hc⟩ := hs
    subst hv hc
    rw [hu]
    exact ⟨fun x => absurd x (by simp), fun _ => Or.inr ⟨hlit, by simp⟩⟩
  · by_cases h3 : L.isDigit r1 = true ∨ r1 = '-' ∨ r1 = '.'
    · have hu : unresolvedRight L header r = false := by
        simp only [unresolvedRight, rightColumnName, ht, h1, if_false, h3, if_true]
      simp only [secondOperand, h1, if_false, h3, if_true] at hs
      cases hp : L.parseFloat (String.mk (tokenLoop L [] r1 rest)) with
      | none => simp [hp] at hs
      | some x =>
        simp only [hp, Except.ok.injEq, Prod.mk.injEq] at hs
        obtain ⟨hv, hc⟩ := hs
        subst hv hc
        rw [hu]
        exact ⟨fun x => absurd x (by simp), fun _ => Or.inr ⟨hlit, by simp⟩⟩
    · have htok : tokenLoop L [] r1 rest = tokenOf L r1 rest := by
        simpa using tokenLoop_eq L [] r1 rest
      have hu : unresolvedRight L header r
          = decide (String.mk (tokenOf L r1 rest) ∉ header) := by
        simp only [unresolvedRight, rightColumnName, ht, h1, if_false, h3]
      simp only [secondOperand, h1, if_false, h3, htok, Except.ok.injEq, Prod.mk.injEq] at hs
      obtain ⟨hv, hc⟩ := hs
      subst hv hc
      rw [hu]
      by_cases hm : String.mk (tokenOf L r1 rest) ∈ header
      · have hge := headerLoop_snd_mem (String.mk (leftToken L r))
          (String.mk (tokenOf L r1 rest)) header 0 (-1, -1) hm
        refine ⟨fun x => absurd x (by simp [hm]), fun _ => Or.inl ⟨?_, rfl⟩⟩
        show (headerLoop (String.mk (leftToken L r)) (String.mk (tokenOf L r1 rest)) header 0
          (-1, -1)).2 ≠ -1
        omega
      · refine ⟨fun _ => ⟨headerLoop_snd_not_mem _ _ _ _ _ hm, rfl⟩,
          fun x => absurd x (by simp [hm])⟩

/-- Witness of C7 as amended, against `cost, number, id, name`: `cost > 50`
has the literal only, `cost<id` has the right column only, and `cost<zzz`,
whose right column is not in the header, has neither. -/
theorem C7_exactly_one_unless_unresolved_witness :
    (parseExpression asciiLib ["cost", "number", "id", "name"] "cost > 50".data
        = .ok { cols := (0, -1), op := opGreat, value := .num (.fin 50) } ∧
      unresolvedRight asciiLib ["cost", "number", "id", "name"] "cost > 50".data = false ∧
      (((-1 : Int) ≠ -1 ∧ Value.num (.fin 50) = .nil) ∨
        ((-1 : Int) = -1 ∧ Value.num (.fin 50) ≠ .nil))) ∧
    (parseExpression asciiLib ["cost", "number", "id", "name"] "cost<id".data
        = .ok { cols := (0, 2), op := opLess, value := .nil } ∧
      unresolvedRight asciiLib ["cost", "number", "id", "name"] "cost<id".data = false ∧
      (((2 : Int) ≠ -1 ∧ Value.nil = .nil) ∨ ((2 : Int) = -1 ∧ Value.nil ≠ .nil))) ∧
    (parseExpression asciiLib ["cost", "number", "id", "name"] "cost<zzz".data
        = .ok { cols := (0, -1), op := opLess, value := .nil } ∧
      unresolvedRight asciiLib ["cost", "number", "id", "name"] "cost<zzz".data = true ∧
      ((-1 : Int) = -1 ∧ Value.nil = .nil)) :=
  ⟨⟨rfl, rfl, (C7_exactly_one_unless_unresolved asciiLib ["cost", "number", "id", "name"]
      "cost > 50".data { cols := (0, -1), op := opGreat, value := .num (.fin 50) }
      (by decide) rfl).2 rfl⟩,
   ⟨rfl, rfl, (C7_exactly_one_unless_unresolved asciiLib ["cost", "number", "id", "name"]
      "cost<id".data { cols := (0, 2), op := opLess, value := .nil } (by decide) rfl).2 rfl⟩,
   ⟨rfl, rfl, (C7_exactly_one_unless_unresolved asciiLib ["cost", "number", "id", "name"]
      "cost<zzz".data { cols := (0, -1), op := opLess, value := .nil } (by decide) rfl).1 rfl⟩⟩

/-- C8: for a header of distinct non-empty names, a column name `c` of the
header without white space or operator characters, one of the six operators
and a numeric token `n` (first rune a digit, `-` or `.`, no white space) that
the float decoder accepts with value `x`, the text `c op n`, with any white
space around the operator, parses to the left column index of `c`, no right
column, the operator, and the literal number `x`. -/
theorem C8_parse_number (L : Lib) (header : List String) (c s n : String) (op : Int)
    (x : Float64) (w1 w2 : List Char) (n1 : Char) (nr : List Char)
    (hnd : header.Nodup) (hne : "" ∉ header) (hc : c ∈ header) (hct : ColumnToken L c.data)
    (hop : (s, op) ∈ operators) (hw1 : Spaces L w1) (hw2 : Spaces L w2)
    (hn1 : n.data = n1 :: nr) (hnk : L.isDigit n1 = true ∨ n1 = '-' ∨ n1 = '.')
    (hns : NoSpace L n.data) (hx : L.parseFloat n = some x) :
    parseExpression L header (c.data ++ w1 ++ s.data ++ w2 ++ n.data)
      = .ok { cols := ((header.indexOf c : Int), -1), op := op, value := .num x } := by
  have hno : ¬ isOpChar n1 := by
    intro ho
    rcases hnk with h | h | h
    · rw [isDigit_opChar L n1 ho] at h
      exact absurd h (by simp)
    · subst h; exact absurd ho (by decide)
    · subst h; exact absurd ho (by decide)
  have hst : SecondStart L w2 n.data :=
    Or.inr ⟨n1, nr, hn1, hns n1 (by simp [hn1]), Or.inr hno⟩
  have h1 := parseExpression_tokens L header c.data w1 s op w2 n.data hct hw1 hop hw2 hst
  have h2 := parseSecond_number L header c op n x n1 nr hn1 hnk hns hx
  have h3 : (headerLoop c "" header 0 (-1, -1)).1 = (header.indexOf c : Int) := by
    rw [headerLoop_fst_nodup c "" header 0 (-1, -1) hnd hc]
    simp
  have h4 : (headerLoop c "" header 0 (-1, -1)).2 = -1 :=
    headerLoop_snd_not_mem c "" header 0 (-1, -1) hne
  have h5 : headerLoop c "" header 0 (-1, -1) = ((header.indexOf c : Int), -1) :=
    Prod.ext h3 h4
  have h6 : ¬ ((header.indexOf c : Int) = -1) := by omega
  rw [h1]
  show parseSecond L header c op n.data = _
  rw [h2, h5, if_neg h6]

/-- Witness of C8: `cost > 50` against `cost, number, id, name` gives the left
column 0, the operator `>` and the number 50. -/
theorem C8_parse_number_witness :
    parseExpression asciiLib ["cost", "number", "id", "name"] "cost > 50".data
      = .ok { cols := (0, -1), op := opGreat, value := .num (.fin 50) } :=
  C8_parse_number asciiLib ["cost", "number", "id", "name"] "cost" ">" "50" opGreat (.fin 50)
    [' '] [' '] '5' ['0'] (by decide) (by decide) (by decide) (by decide) (by decide)
    (by decide) (by decide) rfl (by decide) (by decide) rfl

/-- C9: white space around the operator does not change the parse: for a
left column token `c` (no white space, no operator character), one of the six
operators, a right-hand side `r` that does not start with an operator
character and runs of white space `w1`, `w2`, the text `c w1 op w2 r` has the
same result, value or error, as `c op r`. -/
theorem C9_whitespace_optional (L : Lib) (header : List String) (c : List Char) (s : String)
    (op : Int) (w1 w2 r : List Char)
    (hct : ColumnToken L c) (hop : (s, op) ∈ operators)
    (hw1 : Spaces L w1) (hw2 : Spaces L w2)
    (hr : ∀ r1 rest, r = r1 :: rest → ¬ isOpChar r1) :
    parseExpression L header (c ++ w1 ++ s.data ++ w2 ++ r)
      = parseExpression L header (c ++ s.data ++ r) := by
  obtain ⟨ws, t, hsplit, hws, ht⟩ := split_spaces L r
  have hstart : ∀ w : List Char, SecondStart L (w ++ ws) t := by
    intro w
    rcases ht with ht | ⟨r1, rest, ht, hs1⟩
    · exact Or.inl ht
    · refine Or.inr ⟨r1, rest, ht, hs1, ?_⟩
      cases ws with
      | nil => exact Or.inr (hr r1 rest (by simp [hsplit, ht]))
      | cons a ws => exact Or.inl (by simp)
  have hw2s : Spaces L (w2 ++ ws) := by
    intro x hx
    rcases List.mem_append.mp hx with h | h
    · exact hw2 x h
    · exact hws x h
  have hnil : Spaces L ([] : List Char) := fun _ h => absurd h (List.not_mem_nil _)
  have e1 : c ++ w1 ++ s.data ++ w2 ++ r = c ++ w1 ++ s.data ++ (w2 ++ ws) ++ t := by
    simp [hsplit]
  have e2 : c ++ s.data ++ r = c ++ [] ++ s.data ++ ([] ++ ws) ++ t := by
    simp [hsplit]
  rw [e1, e2, parseExpression_tokens L header c w1 s op (w2 ++ ws) t hct hw1 hop hw2s (hstart w2),
    parseExpression_tokens L header c [] s op ([] ++ ws) t hct hnil hop
      (by simpa using hws) (hstart [])]

/-- Witness of C9: `cost <= 50` parses like `cost<=50`. -/
theorem C9_whitespace_optional_witness :
    parseExpression asciiLib ["cost", "number", "id", "name"] "cost <= 50".data
      = parseExpression asciiLib ["cost", "number", "id", "name"] "cost<=50".data :=
  C9_whitespace_optional asciiLib ["cost", "number", "id", "name"] "cost".data "<=" opLessEqual
    [' '] [' '] "50".data (by decide) (by decide) (by decide) (by decide)
    (by intro r1 rest h; cases h; decide)

/-- C10 as stated is false: a left column name with white space cannot be
written in an expression (`a b<id` against the header `a b, id` is an unknown
operand), and neither can an empty right column name (`cost<` against the
header `cost` and the empty name is the end of the text). -/
theorem C10_counterexample :
    (["a b", "id"].Nodup ∧
      parseExpression asciiLib ["a b", "id"] ("a b".data ++ "<".data ++ "id".data)
        = .error (.unknownOperand "")) ∧
    (["cost", ""].Nodup ∧
      parseExpression asciiLib ["cost", ""] ("cost".data ++ "<".data ++ "".data)
        = .error .eof) :=
  ⟨⟨by decide, rfl⟩, ⟨by decide, rfl⟩⟩

/-- C10 as amended: for a header of distinct names, a column name `c` of the
header without white space or operator characters, one of the six operators
and a non-empty column name `d` of the header without white space whose first
rune is not a digit, `-`, `.`, a double quote or an operator character, the
text `c op d`, with any white space around the operator, parses to the left
column index of `c`, the right column index of `d`, the operator, and no
literal. -/
theorem C10_parse_two_columns (L : Lib) (header : List String) (c s d : String) (op : Int)
    (w1 w2 : List Char) (d1 : Char) (dr : List Char)
    (hnd : header.Nodup) (hc : c ∈ header) (hd : d ∈ header) (hct : ColumnToken L c.data)
    (hop : (s, op) ∈ operators) (hw1 : Spaces L w1) (hw2 : Spaces L w2)
    (hd1 : d.data = d1 :: dr)
    (hdk : L.isDigit d1 = false ∧ d1 ≠ '-' ∧ d1 ≠ '.' ∧ d1 ≠ '"') (hdo : ¬ isOpChar d1)
    (hds : NoSpace L d.data) :
    parseExpression L header (c.data ++ w1 ++ s.data ++ w2 ++ d.data)
      = .ok { cols := ((header.indexOf c : Int), (header.indexOf d : Int)), op := op,
              value := .nil } := by
  have hst : SecondStart L w2 d.data :=
    Or.inr ⟨d1, dr, hd1, hds d1 (by simp [hd1]), Or.inr hdo⟩
  have h1 := parseExpression_tokens L header c.data w1 s op w2 d.data hct hw1 hop hw2 hst
  have h2 := parseSecond_column L header c op d d1 dr hd1 hdk hds
  have h3 : (headerLoop c d header 0 (-1, -1)).1 = (header.indexOf c : Int) := by
    rw [headerLoop_fst_nodup c d header 0 (-1, -1) hnd hc]
    simp
  have h4 : (headerLoop c d header 0 (-1, -1)).2 = (header.indexOf d : Int) := by
    rw [headerLoop_snd_nodup c d header 0 (-1, -1) hnd hd]
    simp
  have h5 : headerLoop c d header 0 (-1, -1)
      = ((header.indexOf c : Int), (header.indexOf d : Int)) := Prod.ext h3 h4
  have h6 : ¬ ((header.indexOf c : Int) = -1) := by omega
  rw [h1]
  show parseSecond L header c op d.data = _
  rw [h2, h5, if_neg h6]

/-- Witness of C10 as amended: `cost<id` against `cost, number, id, name`
gives the columns 0 and 2, the operator `<` and no literal. -/
theorem C10_parse_two_columns_witness :
    parseExpression asciiLib ["cost", "number", "id", "name"] "cost<id".data
      = .ok { cols := (0, 2), op := opLess, value := .nil } :=
  C10_parse_two_columns asciiLib ["cost", "number", "id", "name"] "cost" "<" "id" opLess
    [] [] 'i' ['d'] (by decide) (by decide) (by decide) (by decide) (by decide)
    (by decide) (by decide) rfl (by decide) (by decide) (by decide)

/-- C11 as stated is false: a header name with white space cannot be written
as the left operand: `a b == "x"` against the header `a b` is an unknown
operand. -/
theorem C11_counterexample :
    ["a b"].Nodup ∧ "" ∉ ["a b"] ∧ '"' ∉ "x".data ∧
    parseExpression asciiLib ["a b"]
        ("a b".data ++ [' '] ++ "==".data ++ [' '] ++ '"' :: ("x".data ++ ['"']))
      = .error (.unknownOperand "") :=
  ⟨by decide, by decide, by decide, rfl⟩

/-- C11 as amended: for a header of distinct non-empty names, a column name
`c` of the header without white space or operator characters, one of the six
operators and a string `q` without double quote, the text `c op "q"`, with any
white space around the operator, parses to the left column index of `c`, no
right column, the operator, and the literal string `q` exactly. -/
theorem C11_parse_quoted_string (L : Lib) (header : List String) (c s q : String) (op : Int)
    (w1 w2 : List Char)
    (hnd : header.Nodup) (hne : "" ∉ header) (hc : c ∈ header) (hct : ColumnToken L c.data)
    (hop : (s, op) ∈ operators) (hw1 : Spaces L w1) (hw2 : Spaces L w2)
    (hq : '"' ∉ q.data) :
    parseExpression L header (c.data ++ w1 ++ s.data ++ w2 ++ '"' :: (q.data ++ ['"']))
      = .ok { cols := ((header.indexOf c : Int), -1), op := op, value := .str q } := by
  have h1 := parseExpression_tokens L header c.data w1 s op w2 ('"' :: (q.data ++ ['"']))
    hct hw1 hop hw2 (secondStart_quote L w2 _)
  have h2 := parseSecond_quoted L header c op q.data ['"'] hq (Or.inr ⟨[], rfl⟩)
  have h3 : (headerLoop c "" header 0 (-1, -1)).1 = (header.indexOf c : Int) := by
    rw [headerLoop_fst_nodup c "" header 0 (-1, -1) hnd hc]
    simp
  have h4 : (headerLoop c "" header 0 (-1, -1)).2 = -1 :=
    headerLoop_snd_not_mem c "" header 0 (-1, -1) hne
  have h5 : headerLoop c "" header 0 (-1, -1) = ((header.indexOf c : Int), -1) :=
    Prod.ext h3 h4
  have h6 : ¬ ((header.indexOf c : Int) = -1) := by omega
  rw [h1]
  show parseSecond L header c op ('"' :: (q.data ++ ['"'])) = _
  rw [h2, h5, if_neg h6]

/-- Witness of C11 as amended: `name == "test name"` against
`cost, number, id, name` gives the literal string `test name` on column 3. -/
theorem C11_parse_quoted_string_witness :
    parseExpression asciiLib ["cost", "number", "id", "name"] "name == \"test name\"".data
      = .ok { cols := (3, -1), op := opEqual, value := .str "test name" } :=
  C11_parse_quoted_string asciiLib ["cost", "number", "id", "name"] "name" "==" "test name"
    opEqual [' '] [' '] (by decide) (by decide) (by decide) (by decide) (by decide)
    (by decide) (by decide) (by decide)

/-- C12: if the left column-name token of a text is not a name of the
header, `parseExpression` returns an error; and every condition it returns has
a left column index that is a position of the header holding the left
token. -/
theorem C12_left_column_resolves (L : Lib) (header : List String) (r : List Char) :
    (String.mk (leftToken L r) ∉ header → ∃ err, parseExpression L header r = .error err) ∧
    (∀ e, parseExpression L header r = .ok e →
      0 ≤ e.cols.1 ∧ index header e.cols.1 = some (String.mk (leftToken L r))) := by
  have key : ∀ e, parseExpression L header r = .ok e →
      0 ≤ e.cols.1 ∧ index header e.cols.1 = some (String.mk (leftToken L r)) := by
    intro e h
    obtain ⟨op, _, h2⟩ := parseExpression_ok_inv L header r e h
    exact (parseSecond_ok_left L header _ op _ e h2).2
  refine ⟨?_, key⟩
  intro hn
  cases h : parseExpression L header r with
  | error err => exact ⟨err, rfl⟩
  | ok e =>
    obtain ⟨h0, h1⟩ := key e h
    have h2 : index header e.cols.1 = header[e.cols.1.toNat]? := by
      simp [index, h0]
    rw [h2] at h1
    exact absurd (List.getElem?_mem h1) hn

/-- Witness of C12: `zzz > 5` against `cost, number, id, name` is an error,
and the condition of `id > 5` has the left column 2, which holds `id`. -/
theorem C12_left_column_resolves_witness :
    (∃ err, parseExpression asciiLib ["cost", "number", "id", "name"] "zzz > 5".data
      = .error err) ∧
    (0 ≤ (2 : Int) ∧ index ["cost", "number", "id", "name"] 2 = some "id") :=
  ⟨(C12_left_column_resolves asciiLib ["cost", "number", "id", "name"] "zzz > 5".data).1
      (by decide),
   (C12_left_column_resolves asciiLib ["cost", "number", "id", "name"] "id > 5".data).2
      { cols := (2, -1), op := opGreat, value := .num (.fin 5) } rfl⟩

/-- C13 as stated is false: a header name with white space cannot be written
as the left operand: `a b < zzz` against the header `a b` is an unknown
operand. -/
theorem C13_counterexample :
    "a b" ∈ ["a b"] ∧ "zzz" ∉ ["a b"] ∧
    parseExpression asciiLib ["a b"] ("a b".data ++ [' '] ++ "<".data ++ [' '] ++ "zzz".data)
      = .error (.unknownOperand "") :=
  ⟨by decide, by decide, rfl⟩

/-- C13 as amended: for a column name `c` of the header without white space
or operator characters, one of the six operators and a column-name token `d`
(non-empty, without white space, first rune not a digit, `-`, `.`, a double
quote or an operator character) that is not in the header, the text `c op d`,
with any white space around the operator, parses: the condition has a left
column that holds `c`, the -1 sentinel as right column, the operator, and no
literal. -/
theorem C13_unresolved_column_parses (L : Lib) (header : List String) (c d s : String)
    (op : Int) (w1 w2 : List Char) (d1 : Char) (dr : List Char)
    (hc : c ∈ header) (hct : ColumnToken L c.data) (hop : (s, op) ∈ operators)
    (hw1 : Spaces L w1) (hw2 : Spaces L w2)
    (hd : d ∉ header) (hd1 : d.data = d1 :: dr)
    (hdk : L.isDigit d1 = false ∧ d1 ≠ '-' ∧ d1 ≠ '.' ∧ d1 ≠ '"') (hdo : ¬ isOpChar d1)
    (hds : NoSpace L d.data) :
    ∃ i : Nat, header[i]? = some c ∧
      parseExpression L header (c.data ++ w1 ++ s.data ++ w2 ++ d.data)
        = .ok { cols := ((i : Int), -1), op := op, value := .nil } := by
  have hst : SecondStart L w2 d.data :=
    Or.inr ⟨d1, dr, hd1, hds d1 (by simp [hd1]), Or.inr hdo⟩
  have h1 := parseExpression_tokens L header c.data w1 s op w2 d.data hct hw1 hop hw2 hst
  have h2 := parseSecond_column L header c op d d1 dr hd1 hdk hds
  obtain ⟨k, hk1, hk2⟩ := headerLoop_fst_index c d header hc
  have h4 : (headerLoop c d header 0 (-1, -1)).2 = -1 :=
    headerLoop_snd_not_mem c d header 0 (-1, -1) hd
  have h5 : headerLoop c d header 0 (-1, -1) = ((k : Int), -1) := Prod.ext hk1 h4
  have h6 : ¬ ((k : Int) = -1) := by omega
  refine ⟨k, hk2, ?_⟩
  rw [h1]
  show parseSecond L header c op d.data = _
  rw [h2, h5, if_neg h6]

/-- Witness of C13 as amended: `cost < zzz` against `cost, number, id, name`
parses to the left column 0, no right column and no literal. -/
theorem C13_unresolved_column_parses_witness :
    ∃ i : Nat, ["cost", "number", "id", "name"][i]? = some "cost" ∧
      parseExpression asciiLib ["cost", "number", "id", "name"]
          ("cost".data ++ [' '] ++ "<".data ++ [' '] ++ "zzz".data)
        = .ok { cols := ((i : Int), -1), op := opLess, value := .nil } :=
  C13_unresolved_column_parses asciiLib ["cost", "number", "id", "name"] "cost" "zzz" "<" opLess
    [' '] [' '] 'z' ['z', 'z'] (by decide) (by decide) (by decide) (by decide) (by decide)
    (by decide) rfl (by decide) (by decide) (by decide)

/-- C14: if the operator token of a text (the maximal run of `=`, `!`, `>`,
`<` after the column name) is not one of the six operators, `parseExpression`
returns an error, whatever the header. -/
theorem C14_unknown_operand_rejected (L : Lib) (header : List String) (r : List Char)
    (h : String.mk (operatorToken L r) ∉ operators.map Prod.fst) :
    ∃ err, parseExpression L header r = .error err := by
  cases hp : parseExpression L header r with
  | error err => exact ⟨err, rfl⟩
  | ok e =>
    obtain ⟨op, h1, _⟩ := parseExpression_ok_inv L header r e hp
    exact absurd (List.mem_map_of_mem Prod.fst (operandCode_some _ op h1)) h

/-- Witness of C14: `cost = 5`, `cost => 5` and `cost 5` are rejected against
`cost, number, id, name`, where the column `cost` exists. -/
theorem C14_unknown_operand_rejected_witness :
    (∃ err, parseExpression asciiLib ["cost", "number", "id", "name"] "cost = 5".data
      = .error err) ∧
    parseExpression asciiLib ["cost", "number", "id", "name"] "cost = 5".data
      = .error (.unknownOperand "=") ∧
    parseExpression asciiLib ["cost", "number", "id", "name"] "cost => 5".data
      = .error (.unknownOperand "=>") ∧
    parseExpression asciiLib ["cost", "number", "id", "name"] "cost 5".data
      = .error (.unknownOperand "") :=
  ⟨C14_unknown_operand_rejected asciiLib ["cost", "number", "id", "name"] "cost = 5".data
      (by decide), rfl, rfl, rfl⟩

/-- C15: if the right-hand side of a text starts with a digit, `-` or `.` and
the float decoder does not accept the right-hand token (the runes up to the
next white space or the end of the text), `parseExpression` returns an error:
the token is never taken as a column name or a string. -/
theorem C15_bad_number_rejected (L : Lib) (header : List String) (r : List Char) (n1 : Char)
    (rest : List Char) (hr : rightSide L r = n1 :: rest)
    (hn1 : L.isDigit n1 = true ∨ n1 = '-' ∨ n1 = '.')
    (hpf : L.parseFloat (String.mk (tokenOf L n1 rest)) = none) :
    ∃ err, parseExpression L header r = .error err := by
  cases hp : parseExpression L header r with
  | error err => exact ⟨err, rfl⟩
  | ok e =>
    exfalso
    obtain ⟨op, _, h2⟩ := parseExpression_ok_inv L header r e hp
    rw [hr] at h2
    obtain ⟨r1, rest2, val, col2, ht, hs, _, _⟩ := parseSecond_ok_inv L header _ op _ e h2
    cases ht
    have hq : n1 ≠ '"' := by
      rintro rfl
      rcases hn1 with h | h | h
      · rw [L.notDigit _ (by simp)] at h
        exact absurd h (by simp)
      · exact absurd h (by decide)
      · exact absurd h (by decide)
    have ht2 : tokenLoop L [] n1 rest = tokenOf L n1 rest := by
      simpa using tokenLoop_eq L [] n1 rest
    simp only [secondOperand, hq, if_false, hn1, if_true, ht2, hpf] at hs
    cases hs

/-- Witness of C15: `cost > 5x` and `cost > -` fail against
`cost, number, id, name`, with the error of the float decoder. -/
theorem C15_bad_number_rejected_witness :
    (∃ err, parseExpression asciiLib ["cost", "number", "id", "name"] "cost > 5x".data
      = .error err) ∧
    parseExpression asciiLib ["cost", "number", "id", "name"] "cost > 5x".data
      = .error (.number "5x") ∧
    parseExpression asciiLib ["cost", "number", "id", "name"] "cost > -".data
      = .error (.number "-") :=
  ⟨C15_bad_number_rejected asciiLib ["cost", "number", "id", "name"] "cost > 5x".data '5' ['x']
      rfl (by decide) rfl, rfl, rfl⟩

/-- C16 as stated is false: a header name with white space cannot be written
as the left operand, so `a b == "x` against the header `a b` does not succeed:
it is an unknown operand. -/
theorem C16_counterexample :
    "a b" ∈ ["a b"] ∧ '"' ∉ "x".data ∧
    parseExpression asciiLib ["a b"] ("a b".data ++ [' '] ++ "==".data ++ [' '] ++ '"' :: "x".data)
      = .error (.unknownOperand "") :=
  ⟨by decide, by decide, rfl⟩

/-- C16 as amended: for a column name `c` of the header without white space
or operator characters, one of the six operators and a string `q` without
double quote, the text `c op "q` without closing quote, with any white space
around the operator, parses, and to the same condition as `c op "q"` with the
closing quote: its literal is the string `q`, its operator is `op` and its
left column holds `c`. -/
theorem C16_unterminated_quote (L : Lib) (header : List String) (c s q : String) (op : Int)
    (w1 w2 : List Char)
    (hc : c ∈ header) (hct : ColumnToken L c.data) (hop : (s, op) ∈ operators)
    (hw1 : Spaces L w1) (hw2 : Spaces L w2) (hq : '"' ∉ q.data) :
    ∃ e, parseExpression L header (c.data ++ w1 ++ s.data ++ w2 ++ '"' :: q.data) = .ok e ∧
      parseExpression L header (c.data ++ w1 ++ s.data ++ w2 ++ '"' :: (q.data ++ ['"']))
        = .ok e ∧
      e.value = .str q ∧ e.op = op ∧ index header e.cols.1 = some c := by
  have h1 := parseExpression_tokens L header c.data w1 s op w2 ('"' :: q.data)
    hct hw1 hop hw2 (secondStart_quote L w2 _)
  have h1c := parseExpression_tokens L header c.data w1 s op w2 ('"' :: (q.data ++ ['"']))
    hct hw1 hop hw2 (secondStart_quote L w2 _)
  have h2 := parseSecond_quoted L header c op q.data [] hq (Or.inl rfl)
  have h2c := parseSecond_quoted L header c op q.data ['"'] hq (Or.inr ⟨[], rfl⟩)
  rw [List.append_nil] at h2
  obtain ⟨k, hk1, hk2⟩ := headerLoop_fst_index c "" header hc
  have h6 : ¬ ((headerLoop c "" header 0 (-1, -1)).1 = -1) := by rw [hk1]; omega
  refine ⟨{ cols := headerLoop c "" header 0 (-1, -1), op := op, value := .str q }, ?_, ?_,
    rfl, rfl, ?_⟩
  · rw [h1]
    show parseSecond L header c op ('"' :: q.data) = _
    rw [h2, if_neg h6]
  · rw [h1c]
    show parseSecond L header c op ('"' :: (q.data ++ ['"'])) = _
    rw [h2c, if_neg h6]
  · show index header (headerLoop c "" header 0 (-1, -1)).1 = some c
    rw [hk1, index_natCast, hk2]

/-- Witness of C16 as amended: `name == "test name`, without closing quote,
against `cost, number, id, name`. -/
theorem C16_unterminated_quote_witness :
    ∃ e, parseExpression asciiLib ["cost", "number", "id", "name"]
          ("name".data ++ [' '] ++ "==".data ++ [' '] ++ '"' :: "test name".data) = .ok e ∧
      parseExpression asciiLib ["cost", "number", "id", "name"]
          ("name".data ++ [' '] ++ "==".data ++ [' '] ++ '"' :: ("test name".data ++ ['"']))
        = .ok e ∧
      e.value = .str "test name" ∧ e.op = opEqual ∧
      index ["cost", "number", "id", "name"] e.cols.1 = some "name" :=
  C16_unterminated_quote asciiLib ["cost", "number", "id", "name"] "name" "==" "test name"
    opEqual [' '] [' '] (by decide) (by decide) (by decide) (by decide) (by decide) (by decide)

/-! ## Properties of the row selection -/

/-- C17: with the invert flag unset, for a row in which the cells that the
conditions refer to exist and are not empty, `rowsFn` returns the row when the
comparison of at least one condition is true on the row, and an empty row
otherwise; with no condition it returns an empty row. -/
theorem C17_rowsFn_normal (L : Lib) (row : List String) (exps : List expression)
    (h : ∀ e ∈ exps, CellsNonEmpty row e) :
    rowsFn L false (.ok row) exps
      = some (.ok (if exps.any (conditionHolds L row) = true then row else [])) ∧
    rowsFn L false (.ok row) [] = some (.ok []) := by
  refine ⟨?_, rfl⟩
  simp only [rowsFn, selLoop_any L row exps h]
  by_cases hc : exps.any (conditionHolds L row) = true <;> simp [hc]

/-- Witness of C17: `Cost > 50` parses against the header of the sample
table to a condition on column 2; on the third row `rowsFn` returns the row,
and over the table it returns exactly the rows with Item 3, 6 and 7. -/
theorem C17_rowsFn_normal_witness :
    parseExpression asciiLib sampleHeader "Cost > 50".data
      = .ok { cols := (2, -1), op := opGreat, value := .num (.fin 50) } ∧
    (rowsFn asciiLib false (.ok ["3", "5", "80", "400", "clamps"])
        [{ cols := (2, -1), op := opGreat, value := .num (.fin 50) }]
      = some (.ok (if [({ cols := (2, -1), op := opGreat, value := .num (.fin 50) } : expression)].any
            (conditionHolds asciiLib ["3", "5", "80", "400", "clamps"]) = true
          then ["3", "5", "80", "400", "clamps"] else [])) ∧
      rowsFn asciiLib false (.ok ["3", "5", "80", "400", "clamps"]) [] = some (.ok [])) ∧
    rowsSelect asciiLib false [{ cols := (2, -1), op := opGreat, value := .num (.fin 50) }]
        sampleRows
      = [["3", "5", "80", "400", "clamps"], ["6", "89", "147", "13083", "bunsen burners"],
         ["7", "5", "175", "875", "scales"]] :=
  ⟨rfl,
   C17_rowsFn_normal asciiLib ["3", "5", "80", "400", "clamps"]
     [{ cols := (2, -1), op := opGreat, value := .num (.fin 50) }]
     (by
       intro e he
       rw [List.mem_singleton] at he
       subst he
       exact ⟨⟨"80", rfl, by decide⟩, fun h => absurd rfl h⟩),
   rfl⟩

/-- C18: for a non-empty row on which the evaluation of the conditions is
defined, `rowsFn` with the invert flag set returns the row exactly when
`rowsFn` with the flag unset returns an empty row, and whatever the flag, a row
that `rowsFn` returns is the input row or the empty row. -/
theorem C18_invert_complement (L : Lib) (row : List String) (exps : List expression)
    (hrow : row ≠ []) (hdef : (rowsFn L false (.ok row) exps).isSome = true) :
    (rowsFn L true (.ok row) exps = some (.ok row)
      ↔ rowsFn L false (.ok row) exps = some (.ok [])) ∧
    (∀ (invert : Bool) (out : List String),
      rowsFn L invert (.ok row) exps = some (.ok out) → out = row ∨ out = []) := by
  cases hs : selLoop L row exps with
  | none => simp [rowsFn, hs] at hdef
  | some sel =>
    constructor
    · cases sel <;> simp [rowsFn, hs, hrow, Ne.symm hrow]
    · intro invert out h
      cases sel <;> cases invert <;> simp [rowsFn, hs] at h <;> simp [← h]

/-- Witness of C18: over the seven rows of the sample table with `Cost > 50`,
the normal mode passes the rows with Item 3, 6 and 7 and the invert mode the
other four rows. -/
theorem C18_invert_complement_witness :
    ((rowsFn asciiLib true (.ok ["1", "3", "50", "150", "rubber gloves"])
          [{ cols := (2, -1), op := opGreat, value := .num (.fin 50) }]
        = some (.ok ["1", "3", "50", "150", "rubber gloves"])
      ↔ rowsFn asciiLib false (.ok ["1", "3", "50", "150", "rubber gloves"])
          [{ cols := (2, -1), op := opGreat, value := .num (.fin 50) }]
        = some (.ok [])) ∧
     (∀ (invert : Bool) (out : List String),
      rowsFn asciiLib invert (.ok ["1", "3", "50", "150", "rubber gloves"])
          [{ cols := (2, -1), op := opGreat, value := .num (.fin 50) }] = some (.ok out) →
        out = ["1", "3", "50", "150", "rubber gloves"] ∨ out = [])) ∧
    rowsSelect asciiLib false [{ cols := (2, -1), op := opGreat, value := .num (.fin 50) }]
        sampleRows
      = [["3", "5", "80", "400", "clamps"], ["6", "89", "147", "13083", "bunsen burners"],
         ["7", "5", "175", "875", "scales"]] ∧
    rowsSelect asciiLib true [{ cols := (2, -1), op := opGreat, value := .num (.fin 50) }]
        sampleRows
      = [["1", "3", "50", "150", "rubber gloves"], ["2", "100", "5", "500", "test tubes"],
         ["4", "23", "19", "437", "plates"], ["5", "99", "24", "2376", "cleaning cloth"]] :=
  ⟨C18_invert_complement asciiLib ["1", "3", "50", "150", "rubber gloves"]
     [{ cols := (2, -1), op := opGreat, value := .num (.fin 50) }] (by decide) rfl,
   rfl, rfl⟩

/-- C19: for a cell text whose first rune is `r1`, `getFieldValue` is the
number `x` exactly when `r1` is a digit, `-` or `.` and the float decoder
accepts the whole text with value `x`; in every other case it is the text
itself as a string, in particular whenever `r1` is none of these, whatever the
float decoder says. -/
theorem C19_getFieldValue (L : Lib) (f : String) (r1 : Char) (rest : List Char)
    (hf : f.data = r1 :: rest) :
    (∀ x, getFieldValue L f = some (.num x)
      ↔ ((L.isDigit r1 = true ∨ r1 = '-' ∨ r1 = '.') ∧ L.parseFloat f = some x)) ∧
    ((¬ ∃ x, (L.isDigit r1 = true ∨ r1 = '-' ∨ r1 = '.') ∧ L.parseFloat f = some x) →
      getFieldValue L f = some (.str f)) ∧
    (¬ (L.isDigit r1 = true ∨ r1 = '-' ∨ r1 = '.') → getFieldValue L f = some (.str f)) := by
  by_cases hk : L.isDigit r1 = true ∨ r1 = '-' ∨ r1 = '.'
  · cases hp : L.parseFloat f with
    | none => simp [getFieldValue, hf, hk, hp]
    | some y => simp [getFieldValue, hf, hk, hp]
  · simp [getFieldValue, hf, hk]

/-- Witness of C19: the cell `50` is the number 50; the cells `x5`, `+5`,
`Inf` and ` 5` are strings. -/
theorem C19_getFieldValue_witness :
    getFieldValue asciiLib "50" = some (.num (.fin 50)) ∧
    getFieldValue asciiLib "x5" = some (.str "x5") ∧
    getFieldValue asciiLib "+5" = some (.str "+5") ∧
    getFieldValue asciiLib "Inf" = some (.str "Inf") ∧
    getFieldValue asciiLib " 5" = some (.str " 5") :=
  ⟨((C19_getFieldValue asciiLib "50" '5' ['0'] rfl).1 (.fin 50)).mpr ⟨by decide, rfl⟩,
   (C19_getFieldValue asciiLib "x5" 'x' ['5'] rfl).2.2 (by decide), rfl, rfl, rfl⟩

/-- C20: for two strings, `compare` is the relation of the lexicographic
order of strings that the operator names: equal, different, greater, greater
or equal, less, less or equal. -/
theorem C20_compare_strings (v w : String) :
    compare (.str v) (.str w) opEqual = decide (v = w) ∧
    compare (.str v) (.str w) opDiff = decide (v ≠ w) ∧
    compare (.str v) (.str w) opGreat = decide (v > w) ∧
    compare (.str v) (.str w) opGreatEqual = decide (v ≥ w) ∧
    compare (.str v) (.str w) opLess = decide (v < w) ∧
    compare (.str v) (.str w) opLessEqual = decide (v ≤ w) := by
  refine ⟨rfl, rfl, rfl, ?_, rfl, ?_⟩
  · show (decide (w < v) || decide (v = w)) = decide (w ≤ v)
    rw [Bool.eq_iff_iff]
    simp only [Bool.or_eq_true, decide_eq_true_eq]
    rw [le_iff_lt_or_eq]
    constructor
    · rintro (h | h)
      · exact Or.inl h
      · exact Or.inr h.symm
    · rintro (h | h)
      · exact Or.inl h
      · exact Or.inr h.symm
  · show (decide (v < w) || decide (v = w)) = decide (v ≤ w)
    rw [Bool.eq_iff_iff]
    simp only [Bool.or_eq_true, decide_eq_true_eq]
    rw [le_iff_lt_or_eq]

/-- C21: for two numbers, `compare` is the comparison of Go on `float64` that
the operator names; and when neither is a NaN (not a number), it is the
numeric relation: equal, different, greater, greater or equal, less, less or
equal on the number line extended with the two infinities. -/
theorem C21_compare_numbers (x w : Float64) :
    (compare (.num x) (.num w) opEqual = Float64.eq x w ∧
     compare (.num x) (.num w) opDiff = !Float64.eq x w ∧
     compare (.num x) (.num w) opGreat = Float64.lt w x ∧
     compare (.num x) (.num w) opGreatEqual = Float64.le w x ∧
     compare (.num x) (.num w) opLess = Float64.lt x w ∧
     compare (.num x) (.num w) opLessEqual = Float64.le x w) ∧
    (x ≠ .nan → w ≠ .nan →
      (compare (.num x) (.num w) opEqual = true ↔ x = w) ∧
      (compare (.num x) (.num w) opDiff = true ↔ x ≠ w) ∧
      (compare (.num x) (.num w) opGreat = true ↔ x.toExtended > w.toExtended) ∧
      (compare (.num x) (.num w) opGreatEqual = true ↔ x.toExtended ≥ w.toExtended) ∧
      (compare (.num x) (.num w) opLess = true ↔ x.toExtended < w.toExtended) ∧
      (compare (.num x) (.num w) opLessEqual = true ↔ x.toExtended ≤ w.toExtended)) := by
  refine ⟨⟨rfl, rfl, rfl, rfl, rfl, rfl⟩, fun hx hw => ⟨?_, ?_, ?_, ?_, ?_, ?_⟩⟩
  · exact Float64.eq_iff x w hx hw
  · show (!Float64.eq x w) = true ↔ x ≠ w
    rw [Bool.not_eq_true', ← Bool.not_eq_true, Float64.eq_iff x w hx hw]
  · exact Float64.lt_iff w x hw hx
  · exact Float64.le_iff w x hw hx
  · exact Float64.lt_iff x w hx hw
  · exact Float64.le_iff x w hx hw

/-- Witness of C21: 20 against 100, as in the tests: not equal, different,
not greater, not greater or equal, less, less or equal. -/
theorem C21_compare_numbers_witness :
    (compare (.num (.fin 20)) (.num (.fin 100)) opEqual = true
      ↔ Float64.fin 20 = Float64.fin 100) ∧
    (compare (.num (.fin 20)) (.num (.fin 100)) opDiff = true
      ↔ Float64.fin 20 ≠ Float64.fin 100) ∧
    (compare (.num (.fin 20)) (.num (.fin 100)) opGreat = true
      ↔ (Float64.fin 20).toExtended > (Float64.fin 100).toExtended) ∧
    (compare (.num (.fin 20)) (.num (.fin 100)) opGreatEqual = true
      ↔ (Float64.fin 20).toExtended ≥ (Float64.fin 100).toExtended) ∧
    (compare (.num (.fin 20)) (.num (.fin 100)) opLess = true
      ↔ (Float64.fin 20).toExtended < (Float64.fin 100).toExtended) ∧
    (compare (.num (.fin 20)) (.num (.fin 100)) opLessEqual = true
      ↔ (Float64.fin 20).toExtended ≤ (Float64.fin 100).toExtended) :=
  (C21_compare_numbers (.fin 20) (.fin 100)).2 (by decide) (by decide)

/-- C25: a condition returned by `parseExpression` is within the bounds of
the header: its left column is a position of the header, its right column is -1
or a position of the header, and its operator is one of the six codes; so on a
row with at least as many fields as the header, the cells it refers to
exist. -/
theorem C25_condition_in_bounds (L : Lib) (header : List String) (r : List Char)
    (e : expression) (h : parseExpression L header r = .ok e) :
    (0 ≤ e.cols.1 ∧ e.cols.1 < header.length) ∧
    (e.cols.2 = -1 ∨ (0 ≤ e.cols.2 ∧ e.cols.2 < header.length)) ∧
    e.op ∈ [opEqual, opDiff, opGreat, opGreatEqual, opLess, opLessEqual] ∧
    (∀ row : List String, header.length ≤ row.length →
      (index row e.cols.1).isSome = true ∧
      (e.cols.2 ≠ -1 → (index row e.cols.2).isSome = true)) := by
  obtain ⟨op, hop, h2⟩ := parseExpression_ok_inv L header r e h
  obtain ⟨r1, rest, val, col2, _, _, he, hk⟩ := parseSecond_ok_inv L header _ op _ e h2
  subst he
  have hb1 : ∃ k : Nat, (headerLoop (String.mk (leftToken L r)) col2 header 0 (-1, -1)).1 = k ∧
      k < header.length := by
    rcases headerLoop_fst_spec (String.mk (leftToken L r)) col2 header 0 (-1, -1)
      with h1 | ⟨k, h1, h3⟩
    · exact absurd h1 hk
    · exact ⟨k, by simpa using h1, (List.getElem?_eq_some.mp h3).1⟩
  have hb2 : (headerLoop (String.mk (leftToken L r)) col2 header 0 (-1, -1)).2 = -1 ∨
      ∃ k : Nat, (headerLoop (String.mk (leftToken L r)) col2 header 0 (-1, -1)).2 = k ∧
        k < header.length := by
    rcases headerLoop_snd_spec (String.mk (leftToken L r)) col2 header 0 (-1, -1)
      with h1 | ⟨k, h1, h3⟩
    · exact Or.inl h1
    · exact Or.inr ⟨k, by simpa using h1, (List.getElem?_eq_some.mp h3).1⟩
  have hop2 : op ∈ [opEqual, opDiff, opGreat, opGreatEqual, opLess, opLessEqual] := by
    have := operandCode_some _ op hop
    simp only [operators, List.mem_cons, Prod.mk.injEq, List.mem_singleton, List.not_mem_nil,
      or_false] at this
    rcases this with ⟨_, rfl⟩ | ⟨_, rfl⟩ | ⟨_, rfl⟩ | ⟨_, rfl⟩ | ⟨_, rfl⟩ | ⟨_, rfl⟩ <;> simp
  obtain ⟨k1, hk1, hl1⟩ := hb1
  show (0 ≤ (headerLoop (String.mk (leftToken L r)) col2 header 0 (-1, -1)).1 ∧
      (headerLoop (String.mk (leftToken L r)) col2 header 0 (-1, -1)).1 < header.length) ∧
    ((headerLoop (String.mk (leftToken L r)) col2 header 0 (-1, -1)).2 = -1 ∨
      (0 ≤ (headerLoop (String.mk (leftToken L r)) col2 header 0 (-1, -1)).2 ∧
       (headerLoop (String.mk (leftToken L r)) col2 header 0 (-1, -1)).2 < header.length)) ∧
    op ∈ [opEqual, opDiff, opGreat, opGreatEqual, opLess, opLessEqual] ∧
    (∀ row : List String, header.length ≤ row.length →
      (index row (headerLoop (String.mk (leftToken L r)) col2 header 0 (-1, -1)).1).isSome
        = true ∧
      ((headerLoop (String.mk (leftToken L r)) col2 header 0 (-1, -1)).2 ≠ -1 →
        (index row (headerLoop (String.mk (leftToken L r)) col2 header 0 (-1, -1)).2).isSome
          = true))
  refine ⟨⟨by omega, by omega⟩, ?_, hop2, ?_⟩
  · rcases hb2 with h1 | ⟨k2, hk2, hl2⟩
    · exact Or.inl h1
    · exact Or.inr ⟨by omega, by omega⟩
  · intro row hrow
    constructor
    · rw [hk1, index_natCast]
      have : k1 < row.length := by omega
      simp [List.getElem?_eq_getElem this]
    · intro hne
      rcases hb2 with h1 | ⟨k2, hk2, hl2⟩
      · exact absurd h1 hne
      · rw [hk2, index_natCast]
        have : k2 < row.length := by omega
        simp [List.getElem?_eq_getElem this]

/-- Witness of C25: the condition of `cost<id` against
`cost, number, id, name`, with the columns 0 and 2 and the operator `<`. -/
theorem C25_condition_in_bounds_witness :
    (0 ≤ (0 : Int) ∧ (0 : Int) < ["cost", "number", "id", "name"].length) ∧
    ((2 : Int) = -1 ∨ (0 ≤ (2 : Int) ∧ (2 : Int) < ["cost", "number", "id", "name"].length)) ∧
    opLess ∈ [opEqual, opDiff, opGreat, opGreatEqual, opLess, opLessEqual] ∧
    (∀ row : List String, ["cost", "number", "id", "name"].length ≤ row.length →
      (index row 0).isSome = true ∧ ((2 : Int) ≠ -1 → (index row 2).isSome = true)) :=
  C25_condition_in_bounds asciiLib ["cost", "number", "id", "name"] "cost<id".data
    { cols := (0, 2), op := opLess, value := .nil } rfl

/-- C26: for two values that are each a string or a number, swapping the
operands and mirroring the operator does not change `compare`: less against
greater, less or equal against greater or equal, and equal against equal. -/
theorem C26_compare_mirror (a b : Value) (ha : a ≠ .nil) (hb : b ≠ .nil) :
    compare a b opLess = compare b a opGreat ∧
    compare a b opLessEqual = compare b a opGreatEqual ∧
    compare a b opEqual = compare b a opEqual := by
  cases a with
  | nil => exact absurd rfl ha
  | str v =>
    cases b with
    | nil => exact absurd rfl hb
    | str w =>
      refine ⟨rfl, ?_, ?_⟩
      · show (decide (v < w) || decide (v = w)) = (decide (v < w) || decide (w = v))
        simp [eq_comm]
      · show decide (v = w) = decide (w = v)
        simp [eq_comm]
    | num y => exact ⟨rfl, rfl, rfl⟩
  | num x =>
    cases b with
    | nil => exact absurd rfl hb
    | str w => exact ⟨rfl, rfl, rfl⟩
    | num y => exact ⟨rfl, rfl, Float64.eq_symm x y⟩

/-- Witness of C26: the string `50` against the number 50. -/
theorem C26_compare_mirror_witness :
    compare (.str "50") (.num (.fin 50)) opLess = compare (.num (.fin 50)) (.str "50") opGreat ∧
    compare (.str "50") (.num (.fin 50)) opLessEqual
      = compare (.num (.fin 50)) (.str "50") opGreatEqual ∧
    compare (.str "50") (.num (.fin 50)) opEqual
      = compare (.num (.fin 50)) (.str "50") opEqual :=
  C26_compare_mirror (.str "50") (.num (.fin 50)) (by decide) (by decide)

/-! ## Lemmas on the column commands -/

theorem allColumns_eq (hs : List String) (n : Nat) :
    allColumns hs (n : Int) = (List.range' n hs.length).map (fun i => (i : Int)) := by
  induction hs generalizing n with
  | nil => rfl
  | cons a hs ih =>
    have h := ih (n + 1)
    rw [Nat.cast_add, Nat.cast_one] at h
    simp [allColumns, List.range'_succ, h]

theorem lookupColumn_eq (c : String) (hs : List String) (j : Int) :
    lookupColumn c hs j = if c ∈ hs then j + (hs.indexOf c : Int) else -1 := by
  induction hs generalizing j with
  | nil => simp [lookupColumn]
  | cons a hs ih =>
    by_cases h : c = a
    · subst h
      simp [lookupColumn]
    · have h2 : ¬ a = c := fun e => h e.symm
      simp only [lookupColumn, h, if_false, List.mem_cons, false_or, ih,
        List.indexOf_cons_ne _ h2]
      split_ifs
      · push_cast; ring
      · rfl

theorem colsLoop_spec (nr : List String) (head : List Int)
    (h : ∀ x ∈ head, x = -1 ∨ (0 ≤ x ∧ x < nr.length)) :
    ∃ row, colsLoop nr head = some row ∧ row.length = head.length ∧
      ∀ (i : Nat) (x : Int), head[i]? = some x →
        (x = -1 → row[i]? = some "") ∧ (x ≠ -1 → row[i]? = index nr x) := by
  induction head with
  | nil => exact ⟨[], rfl, rfl, fun i x hx => by simp at hx⟩
  | cons a head ih =>
    obtain ⟨row, h1, h2, h3⟩ := ih (fun x hx => h x (by simp [hx]))
    by_cases ha : a = -1
    · refine ⟨"" :: row, by simp [colsLoop, ha, h1], by simp [h2], ?_⟩
      intro i x hx
      cases i with
      | zero =>
        have : a = x := by simpa using hx
        subst this
        exact ⟨fun _ => by simp, fun hn => absurd ha hn⟩
      | succ i => simpa using h3 i x (by simpa using hx)
    · have hb : 0 ≤ a ∧ a < nr.length := by
        rcases h a (by simp) with e | e
        · exact absurd e ha
        · exact e
      obtain ⟨k, hk⟩ : ∃ k : Nat, a = k := ⟨a.toNat, by omega⟩
      have hk2 : k < nr.length := by omega
      have hi : index nr a = some nr[k] := by
        rw [hk, index_natCast, List.getElem?_eq_getElem hk2]
      refine ⟨nr[k] :: row, by simp [colsLoop, ha, hi, h1], by simp [h2], ?_⟩
      intro i x hx
      cases i with
      | zero =>
        have : a = x := by simpa using hx
        subst this
        exact ⟨fun e => absurd e ha, fun _ => by simpa using hi.symm⟩
      | succ i => simpa using h3 i x (by simpa using hx)

theorem toDel_eq (h : String) (args : List String) : toDel h args = decide (h ∈ args) := by
  induction args with
  | nil => simp [toDel]
  | cons c args ih =>
    by_cases e : c = h
    · simp [toDel, e]
    · have e2 : ¬ h = c := fun x => e x.symm
      simp [toDel, e, e2, ih]

theorem deleteLoop_spec (args hs : List String) (n : Nat) (cols : List String)
    (head : List Int) :
    deleteLoop args hs (n : Int) (cols, head)
      = (cols ++ ((hs.enumFrom n).filter (fun p => decide (p.2 ∉ args))).map Prod.snd,
         head ++ ((hs.enumFrom n).filter (fun p => decide (p.2 ∉ args))).map
           (fun p => (p.1 : Int))) := by
  induction hs generalizing n cols head with
  | nil => simp [deleteLoop]
  | cons a hs ih =>
    have h1 := ih (n + 1) cols head
    have h2 := ih (n + 1) (cols ++ [a]) (head ++ [(n : Int)])
    rw [Nat.cast_add, Nat.cast_one] at h1 h2
    by_cases ha : a ∈ args
    · simp [deleteLoop, toDel_eq, ha, h1, List.filter_cons]
    · simp [deleteLoop, toDel_eq, ha, h2, List.filter_cons]

theorem enumFrom_filter_snd (args hs : List String) (n : Nat) :
    ((hs.enumFrom n).filter (fun p => decide (p.2 ∉ args))).map Prod.snd
      = hs.filter (fun h => decide (h ∉ args)) := by
  induction hs generalizing n with
  | nil => rfl
  | cons a hs ih =>
    by_cases ha : a ∈ args
    · simpa [List.filter_cons, ha] using ih (n + 1)
    · simpa [List.filter_cons, ha] using ih (n + 1)

theorem enumFrom_pairwise (hs : List String) (n : Nat) :
    (hs.enumFrom n).Pairwise (fun p q => p.1 < q.1) := by
  induction hs generalizing n with
  | nil => simp
  | cons a hs ih =>
    rw [List.enumFrom_cons, List.pairwise_cons]
    refine ⟨?_, ih (n + 1)⟩
    intro q hq
    have := List.le_fst_of_mem_enumFrom hq
    show n < q.1
    omega

theorem kept_pairwise (args hs : List String) :
    (((hs.enum).filter (fun p => decide (p.2 ∉ args))).map
      (fun p => (p.1 : Int))).Pairwise (fun x y => x < y) := by
  rw [List.pairwise_map]
  have h := (enumFrom_pairwise hs 0).filter (fun p => decide (p.2 ∉ args))
  exact h.imp (fun hpq => by exact_mod_cast hpq)

/-! ## Properties of the column commands -/

/-- C22: for a non-empty list of names `args`, `selectColumns` returns `args`
as `cols` and a `head` of the same length whose entry for a name is the index
of the first header entry equal to it, or -1 when the name is not in the
header; for an empty `args` it returns the header and the positions 0, 1, ...
of the header. -/
theorem C22_selectColumns (header args : List String) :
    (args ≠ [] →
      selectColumns (.ok header) args
        = .ok (args, args.map (fun c => if c ∈ header then (header.indexOf c : Int) else -1)) ∧
      (args.map (fun c => if c ∈ header then (header.indexOf c : Int) else -1)).length
        = args.length) ∧
    selectColumns (.ok header) []
      = .ok (header, (List.range header.length).map (fun i => (i : Int))) := by
  constructor
  · intro hne
    have hl : ¬ args.length = 0 := by
      intro e
      exact hne (List.length_eq_zero.mp e)
    refine ⟨?_, by simp⟩
    simp only [selectColumns, hl, if_false]
    congr 2
    apply List.map_congr_left
    intro c _
    rw [lookupColumn_eq]
    simp
  · have h := allColumns_eq header 0
    rw [Nat.cast_zero] at h
    simp only [selectColumns, List.length_nil, if_true, h, List.range_eq_range']

/-- Witness of C22: the names Item, Cost, Amount, Total over the header of
the sample table give the head 0, 2, 1, -1. -/
theorem C22_selectColumns_witness :
    selectColumns (.ok sampleHeader) ["Item", "Cost", "Amount", "Total"]
      = .ok (["Item", "Cost", "Amount", "Total"], [0, 2, 1, -1]) ∧
    (selectColumns (.ok sampleHeader) ["Item", "Cost", "Amount", "Total"]
        = .ok (["Item", "Cost", "Amount", "Total"],
            ["Item", "Cost", "Amount", "Total"].map
              (fun c => if c ∈ sampleHeader then (sampleHeader.indexOf c : Int) else -1)) ∧
      (["Item", "Cost", "Amount", "Total"].map
          (fun c => if c ∈ sampleHeader then (sampleHeader.indexOf c : Int) else -1)).length
        = ["Item", "Cost", "Amount", "Total"].length) :=
  ⟨rfl, (C22_selectColumns sampleHeader ["Item", "Cost", "Amount", "Total"]).1 (by decide)⟩

/-- C24: for a `head` whose entries are -1 or valid indices of the record
`nr`, `colsFn` returns a row with as many fields as `head` has entries; the
field at a position is the empty string where `head` has -1 and the field of
`nr` at the index that `head` has otherwise. -/
theorem C24_colsFn (nr : List String) (head : List Int)
    (h : ∀ x ∈ head, x = -1 ∨ (0 ≤ x ∧ x < nr.length)) :
    ∃ row, colsFn (.ok nr) head = some (.ok row) ∧ row.length = head.length ∧
      ∀ (i : Nat) (x : Int), head[i]? = some x →
        (x = -1 → row[i]? = some "") ∧ (x ≠ -1 → row[i]? = index nr x) := by
  obtain ⟨row, h1, h2, h3⟩ := colsLoop_spec nr head h
  exact ⟨row, by simp [colsFn, h1], h2, h3⟩

/-- Witness of C24: the head 0, 2, 1, -1 on the first row of the sample
table gives the fields 1, 50, 3 and an empty field. -/
theorem C24_colsFn_witness :
    colsFn (.ok ["1", "3", "50", "150", "rubber gloves"]) [0, 2, 1, -1]
      = some (.ok ["1", "50", "3", ""]) ∧
    ∃ row, colsFn (.ok ["1", "3", "50", "150", "rubber gloves"]) [0, 2, 1, -1]
        = some (.ok row) ∧
      row.length = [(0 : Int), 2, 1, -1].length ∧
      ∀ (i : Nat) (x : Int), [(0 : Int), 2, 1, -1][i]? = some x →
        (x = -1 → row[i]? = some "") ∧
        (x ≠ -1 → row[i]? = index ["1", "3", "50", "150", "rubber gloves"] x) :=
  ⟨rfl, C24_colsFn ["1", "3", "50", "150", "rubber gloves"] [0, 2, 1, -1] (by decide)⟩

/-- C23: for a non-empty list `args`, `deleteColumns` returns as `cols` the
header names that are not in `args`, in their original order, and as `head` the
original positions of exactly those names: `cols` and `head` have the same
length, `head` is strictly increasing, and the header holds `cols[i]` at the
position `head[i]`; for an empty `args` both results are empty. -/
theorem C23_deleteColumns (header args : List String) :
    (args ≠ [] →
      ∃ cols head, deleteColumns (.ok header) args = .ok (cols, head) ∧
        cols = header.filter (fun h => decide (h ∉ args)) ∧
        head = ((header.enum).filter (fun p => decide (p.2 ∉ args))).map
          (fun p => (p.1 : Int)) ∧
        cols.length = head.length ∧
        head.Pairwise (fun x y => x < y) ∧
        ∀ i : Nat, i < cols.length → (head[i]?).bind (index header) = cols[i]?) ∧
    deleteColumns (.ok header) [] = .ok ([], []) := by
  refine ⟨?_, rfl⟩
  intro hne
  have hl : ¬ args.length = 0 := by
    intro e
    exact hne (List.length_eq_zero.mp e)
  have hspec := deleteLoop_spec args header 0 [] []
  rw [Nat.cast_zero, List.nil_append, List.nil_append] at hspec
  have hcols := enumFrom_filter_snd args header 0
  refine ⟨((header.enum).filter (fun p => decide (p.2 ∉ args))).map Prod.snd,
    ((header.enum).filter (fun p => decide (p.2 ∉ args))).map (fun p => (p.1 : Int)),
    ?_, hcols, rfl, by simp, kept_pairwise args header, ?_⟩
  · simp only [deleteColumns, hl, if_false]
    rw [hspec]
    rfl
  · intro i hi
    rw [List.length_map] at hi
    have hp : ((header.enum).filter (fun p => decide (p.2 ∉ args)))[i]?
        = some ((header.enum).filter (fun p => decide (p.2 ∉ args)))[i] :=
      List.getElem?_eq_getElem hi
    have hm : ((header.enum).filter (fun p => decide (p.2 ∉ args)))[i] ∈ header.enum :=
      (List.mem_filter.mp (List.getElem_mem hi)).1
    have hh := List.mem_enum_iff_getElem?.mp hm
    rw [List.getElem?_map, List.getElem?_map, hp]
    show index header _ = some _
    rw [index_natCast, hh]

/-- Witness of C23: deleting Item, Cost, Amount from the header of the sample
table gives the names Value, Description and the head 3, 4. -/
theorem C23_deleteColumns_witness :
    deleteColumns (.ok sampleHeader) ["Item", "Cost", "Amount"]
      = .ok (["Value", "Description"], [3, 4]) ∧
    ∃ cols head, deleteColumns (.ok sampleHeader) ["Item", "Cost", "Amount"]
        = .ok (cols, head) ∧
      cols = sampleHeader.filter (fun h => decide (h ∉ ["Item", "Cost", "Amount"])) ∧
      head = ((sampleHeader.enum).filter
        (fun p => decide (p.2 ∉ ["Item", "Cost", "Amount"]))).map (fun p => (p.1 : Int)) ∧
      cols.length = head.length ∧
      head.Pairwise (fun x y => x < y) ∧
      ∀ i : Nat, i < cols.length → (head[i]?).bind (index sampleHeader) = cols[i]? :=
  ⟨rfl, (C23_deleteColumns sampleHeader ["Item", "Cost", "Amount"]).1 (by decide)⟩

end Tables
